import Mathlib

/-!
Shallow embedding of the whenwords Go package (human-friendly time formatting
and parsing) together with proofs about the claims of its specification.

The definitions below are translated from the Go source: `TimeAgo`,
`Duration`, `ParseDuration` (with its helpers `parseColonNotation`, embedded
here as `parseColon`, and `parseUnitValuePairs`), `HumanDate`, and the two
leaf helpers `roundHalfUp` and `itoa`.  Go `int64` arithmetic is modelled as
unbounded `Int` with explicit wrapping (`wrap64`) where the source can
overflow.  Strings are modelled as `List Char` internally and `String` at the
public boundary.
-/

namespace Whenwords

/-- Two's-complement wraparound of Go `int64` arithmetic: the representative
of `x` modulo `2 ^ 64` lying in `[-2 ^ 63, 2 ^ 63)`. -/
def wrap64 (x : Int) : Int := (x + 2 ^ 63) % 2 ^ 64 - 2 ^ 63

/-- The four sentinel error values of the package
(`ErrNegativeDuration`, `ErrEmptyInput`, `ErrUnparseable`, `ErrNegativeValue`). -/
inductive WhenError where
  | negativeDuration
  | emptyInput
  | unparseable
  | negativeValue
  deriving DecidableEq, Repr

/-- ASCII decimal digit test (`\d` of Go's regexp is ASCII-only). -/
def isDigit (c : Char) : Bool := 48 ≤ c.toNat && c.toNat ≤ 57

/-- Numeric value of a decimal digit character. -/
def digitVal (c : Char) : Nat := c.toNat - 48

/-- Value of a string of decimal digits, as `strconv.ParseInt` computes it
before any range check. -/
def digitsToNat (ds : List Char) : Nat := ds.foldl (fun a c => 10 * a + digitVal c) 0

/-- `strconv.ParseInt(s, 10, 64)` on a plain digit string: the exact value,
clamped to `MaxInt64` on range error (the source ignores the error and keeps
the clamped value). -/
def clampI64 (n : Nat) : Nat := min n (2 ^ 63 - 1)

/-- ASCII lower-casing as used for the case-insensitive regex match and the
`strings.ToLower` of the matched unit (all matched unit words are ASCII). -/
def toLowerChar (c : Char) : Char :=
  if 65 ≤ c.toNat && c.toNat ≤ 90 then Char.ofNat (c.toNat + 32) else c

/-- The whitespace class of `strings.TrimSpace` (`unicode.IsSpace`),
restricted to its Latin-1 part: tab, newline, vertical tab, form feed,
carriage return, space, NEL, NBSP.  (The larger Unicode space classes are
irrelevant to every claim, which only involve ASCII inputs.) -/
def isSpaceGo (c : Char) : Bool :=
  c.toNat == 32 || (9 ≤ c.toNat && c.toNat ≤ 13) || c.toNat == 133 || c.toNat == 160

/-- `strings.TrimSpace`. -/
def trimSpace (l : List Char) : List Char :=
  ((l.dropWhile isSpaceGo).reverse.dropWhile isSpaceGo).reverse

/-- The `\s` class of Go's regexp (RE2): `[\t\n\f\r ]`. -/
def isSpaceRE (c : Char) : Bool :=
  c.toNat == 32 || c.toNat == 9 || c.toNat == 10 || c.toNat == 12 || c.toNat == 13

/-- Digit emission loop of the source's `itoa` helper, written with explicit
fuel so that it is structural (the fuel `n + 1` always suffices, as the digit
count of `n` is at most `n + 1`).  Builds the buffer back to front exactly as
the Go loop does. -/
def itoaCore : Nat → Nat → List Char → List Char
  | 0, _, acc => acc
  | fuel + 1, n, acc =>
    if n < 10 then Char.ofNat (48 + n % 10) :: acc
    else itoaCore fuel (n / 10) (Char.ofNat (48 + n % 10) :: acc)

/-- Decimal digits of `n` (the source's `itoa` on non-negative input; the
`n = 0` special case of the source coincides with the loop producing `"0"`). -/
def itoaL (n : Nat) : List Char := itoaCore (n + 1) n []

/-- The source's `itoa` integer-to-string helper.  In the source it also
handles negatives; every call site in the package passes a non-negative
count, so the embedding takes `Nat`. -/
def itoa (n : Nat) : String := String.mk (itoaL n)

/-- Models `roundHalfUp(float64(d) / float64(k))` from the source: the
float64 division is modelled as exact rational division, so the result is
`⌊d / k + 1 / 2⌋ = (2 * d + k) / (2 * k)`.  (For the magnitudes reachable
from the claims the float64 computation is exact.) -/
def roundHalfUpDiv (d k : Nat) : Nat := (2 * d + k) / (2 * k)

/-- `TimeAgo` from the source.  The Go function takes the reference as an
optional variadic argument defaulting to the timestamp itself; the embedding
takes it explicitly (`TimeAgo t t` is the no-reference call).  `diff` and its
negation wrap as Go `int64` does; the month bucket's
`diff / (365.0 / 12.0 * 86400)` is modelled as the exact rational
`12 * diff / (365 * 86400)` fed to half-up rounding. -/
def TimeAgo (timestamp : Int) (reference : Int) : String :=
  let diff0 := wrap64 (reference - timestamp)
  let future := diff0 < 0
  let diff := if future then wrap64 (-diff0) else diff0
  if diff < 45 then "just now"
  else
    let d := diff.toNat
    let p : Nat × String :=
      if d < 90 then (1, "minute")
      else if d < 45 * 60 then (roundHalfUpDiv d 60, "minute")
      else if d < 90 * 60 then (1, "hour")
      else if d < 22 * 3600 then (roundHalfUpDiv d 3600, "hour")
      else if d < 36 * 3600 then (1, "day")
      else if d < 26 * 86400 then (roundHalfUpDiv d 86400, "day")
      else if d < 46 * 86400 then (1, "month")
      else if d < 320 * 86400 then (roundHalfUpDiv (12 * d) (365 * 86400), "month")
      else if d < 548 * 86400 then (1, "year")
      else (roundHalfUpDiv d (365 * 86400), "year")
    let unit := if p.1 ≠ 1 then p.2 ++ "s" else p.2
    if future then "in " ++ itoa p.1 ++ " " ++ unit
    else itoa p.1 ++ " " ++ unit ++ " ago"

/-- One row of the source's `units` table inside `Duration`:
seconds per unit, compact suffix, verbose name. -/
structure TUnit where
  seconds : Nat
  compactS : String
  verboseS : String
  deriving DecidableEq, Repr

/-- The fixed unit table of `Duration`: year(365d), month(30d), day, hour,
minute, second, strictly descending. -/
def unitTable : List TUnit :=
  [⟨365 * 86400, "y", "year"⟩, ⟨30 * 86400, "mo", "month"⟩, ⟨86400, "d", "day"⟩,
   ⟨3600, "h", "hour"⟩, ⟨60, "m", "minute"⟩, ⟨1, "s", "second"⟩]

/-- The greedy decomposition loop of `Duration`: for each unit in order, if
the remainder is at least one unit, emit `remaining / unit` and keep
`remaining % unit`. -/
def decompose : Nat → List TUnit → List (Nat × TUnit)
  | _, [] => []
  | remaining, u :: rest =>
    if remaining ≥ u.seconds then
      (remaining / u.seconds, u) :: decompose (remaining % u.seconds) rest
    else decompose remaining rest

/-- The `durationConfig` option record (`compact`, `maxUnits`).  The Go
functional options `WithCompact` / `WithMaxUnits` only ever write these two
fields, so the embedding passes the final record directly. -/
structure DurationConfig where
  compact : Bool
  maxUnits : Int
  deriving DecidableEq, Repr

/-- The default configuration built by `Duration` before applying options. -/
def defaultConfig : DurationConfig := ⟨false, 2⟩

/-- One rendered term of the output loop of `Duration`. -/
def renderPart (cpt : Bool) (p : Nat × TUnit) : String :=
  if cpt then itoa p.1 ++ p.2.compactS
  else itoa p.1 ++ " " ++ p.2.verboseS ++ (if p.1 ≠ 1 then "s" else "")

/-- The output-building loop of `Duration`: a separator before every term but
the first. -/
def joinSep (sep : String) : List String → String
  | [] => ""
  | [x] => x
  | x :: y :: xs => x ++ sep ++ joinSep sep (y :: xs)

/-- `Duration` from the source: negative input fails with
`ErrNegativeDuration`; otherwise greedy decomposition, the zero special case,
the `maxUnits` truncation (applied only when `maxUnits > 0` and the part list
is longer), and joining with `", "` (verbose, pluralised) or `" "`
(compact). -/
def Duration (seconds : Int) (cfg : DurationConfig) : Except WhenError String :=
  if seconds < 0 then .error .negativeDuration
  else
    let parts := decompose seconds.toNat unitTable
    if parts.isEmpty then .ok (if cfg.compact then "0s" else "0 seconds")
    else
      let kept :=
        if cfg.maxUnits > 0 && (parts.length : Int) > cfg.maxUnits then
          parts.take cfg.maxUnits.toNat
        else parts
      .ok (joinSep (if cfg.compact then " " else ", ")
            (kept.map (renderPart cfg.compact)))

/-- Structural reading of the anchored colon regex
`^(\d+):(\d{2})(?::(\d{2}))?$` of the source's colon-notation parser: the
whole string is leading digits, a colon, exactly two digits, and optionally a
colon and exactly two more digits.  (The greedy `\d+` can only match the full
leading digit run, since shrinking it puts a digit where `:` is required.) -/
def colonFields (l : List Char) :
    Option (List Char × (Char × Char) × Option (Char × Char)) :=
  let hs := l.takeWhile isDigit
  if hs.isEmpty then none
  else
    match l.dropWhile isDigit with
    | ':' :: m1 :: m2 :: rest =>
      if isDigit m1 && isDigit m2 then
        match rest with
        | [] => some (hs, (m1, m2), none)
        | ':' :: s1 :: s2 :: [] =>
          if isDigit s1 && isDigit s2 then some (hs, (m1, m2), some (s1, s2)) else none
        | _ => none
      else none
    | _ => none

/-- The source's `parseColonNotation` (name shortened):
`hours*3600 + minutes*60 + seconds` in wrapping `int64` arithmetic, where the
hour numeral is clamped to `MaxInt64` on `ParseInt` range error (the source
discards the error). -/
def parseColon (l : List Char) : Option Int :=
  (colonFields l).map fun f =>
    let hours : Int := clampI64 (digitsToNat f.1)
    let minutes : Int := digitsToNat [f.2.1.1, f.2.1.2]
    let secs : Int :=
      match f.2.2 with
      | none => 0
      | some s => digitsToNat [s.1, s.2]
    wrap64 (wrap64 (wrap64 (hours * 3600) + wrap64 (minutes * 60)) + secs)

/-- Case-insensitive literal match (one alternative of the unit alternation),
returning the matched text in its original case and the rest. -/
def matchLit : List Char → List Char → Option (List Char × List Char)
  | [], l => some ([], l)
  | _ :: _, [] => none
  | p :: ps, c :: cs =>
    if toLowerChar c = toLowerChar p then
      (matchLit ps cs).map fun r => (c :: r.1, r.2)
    else none

/-- A literal followed by a greedy optional `s` (the `lit` `s?` alternatives
of the unit alternation). -/
def matchLitOptS (pat : List Char) (l : List Char) : Option (List Char × List Char) :=
  (matchLit pat l).map fun r =>
    match r with
    | (m, c :: cs) => if toLowerChar c = 's' then (m ++ [c], cs) else (m, c :: cs)
    | (m, []) => (m, [])

/-- The unit alternation
`(w|weeks?|d|days?|h|hrs?|hours?|m|mins?|minutes?|s|secs?|seconds?)` with
Go regexp's leftmost-first (Perl-like) semantics: alternatives are tried in
written order and, the group being last in the pattern, the first alternative
that matches wins.  Case folding is the ASCII folding of `(?i)` (RE2's extra
Unicode foldings, e.g. long s for `s`, are not modelled; no claim involves
non-ASCII input).  Each entry is the literal and whether a greedy optional
`s` follows. -/
def unitAlts : List (List Char × Bool) :=
  [(['w'], false), (['w', 'e', 'e', 'k'], true),
   (['d'], false), (['d', 'a', 'y'], true),
   (['h'], false), (['h', 'r'], true), (['h', 'o', 'u', 'r'], true),
   (['m'], false), (['m', 'i', 'n'], true), (['m', 'i', 'n', 'u', 't', 'e'], true),
   (['s'], false), (['s', 'e', 'c'], true), (['s', 'e', 'c', 'o', 'n', 'd'], true)]

/-- First alternative of the unit alternation that matches at the head of
`l` (leftmost-first order). -/
def matchUnit (l : List Char) : Option (List Char × List Char) :=
  unitAlts.findSome? fun a => if a.2 then matchLitOptS a.1 l else matchLit a.1 l

/-- A single attempt of the term pattern `(\d+(?:\.\d+)?)\s*(unit)` at the
head of `l`, with the regex's greedy backtracking semantics.  Backtracking
never changes the outcome here: shrinking `\d+` or the fraction leaves a
digit or `.` where a space or unit letter is required, and shrinking `\s*`
leaves a space where a unit letter is required; so each greedy piece is
all-or-nothing and the procedure below is exact.  Returns the captured value
text, the captured unit text and the rest of the input. -/
def matchAt (l : List Char) : Option (List Char × List Char × List Char) :=
  let ip := l.takeWhile isDigit
  if ip.isEmpty then none
  else
    let r1 := l.dropWhile isDigit
    let fr : List Char × List Char :=
      if r1.head? = some '.' then
        let fd := r1.tail.takeWhile isDigit
        if fd.isEmpty then ([], r1) else ('.' :: fd, r1.tail.dropWhile isDigit)
      else ([], r1)
    let r3 := fr.2.dropWhile isSpaceRE
    match matchUnit r3 with
    | some (u, rest) => some (ip ++ fr.1, u, rest)
    | none => none

/-- `FindAllStringSubmatch` scanning loop: leftmost non-overlapping matches,
resuming after each match and advancing one character on failure.  Written
with fuel (each step consumes at least one character, so fuel `l.length`
suffices; `scanMatches` supplies it). -/
def scanAux : Nat → List Char → List (List Char × List Char)
  | 0, _ => []
  | _, [] => []
  | fuel + 1, c :: t =>
    match matchAt (c :: t) with
    | some (v, u, rest) => (v, u) :: scanAux fuel rest
    | none => scanAux fuel t

/-- All (value text, unit text) captures of the term regex over the input. -/
def scanMatches (l : List Char) : List (List Char × List Char) := scanAux l.length l

/-- The `unitMultipliers` alias table of `parseUnitValuePairs`. -/
def unitMultipliers : List (String × Nat) :=
  [("w", 604800), ("week", 604800), ("weeks", 604800),
   ("d", 86400), ("day", 86400), ("days", 86400),
   ("h", 3600), ("hr", 3600), ("hrs", 3600), ("hour", 3600), ("hours", 3600),
   ("m", 60), ("min", 60), ("mins", 60), ("minute", 60), ("minutes", 60),
   ("s", 1), ("sec", 1), ("secs", 1), ("second", 1), ("seconds", 1)]

/-- Map lookup `unitMultipliers[strings.ToLower(unit)]`. -/
def lookupMult (u : List Char) : Option Nat :=
  (unitMultipliers.find? (fun e => e.1 = String.mk (u.map toLowerChar))).map (·.2)

/-- Modelled from the float semantics of the decimal branch
`int64(value * float64(multiplier))` where `value = ParseFloat(valueStr)`:
the `ParseFloat` rounding and the float64 product are modelled as exact
rational arithmetic truncated toward zero, and a conversion out of `int64`
range follows the amd64 behavior of yielding `MinInt64`.  No verified claim
reaches this branch (the claims' hypotheses exclude fractional values). -/
def fracContrib (v : List Char) (mult : Nat) : Int :=
  let ip := v.takeWhile (fun c => c ≠ '.')
  let fp := (v.dropWhile (fun c => c ≠ '.')).drop 1
  let q : Nat := digitsToNat (ip ++ fp) * mult / 10 ^ fp.length
  if q ≤ 2 ^ 63 - 1 then (q : Int) else -(2 ^ 63)

/-- One iteration of the accumulation loop of `parseUnitValuePairs`:
unmatched unit words are skipped (`continue`), decimal values go through the
float branch, integer values through `ParseInt` (clamped on range error) and
a wrapping `int64` multiply-add. -/
def termAdd (acc : Int) (t : List Char × List Char) : Int :=
  match lookupMult t.2 with
  | none => acc
  | some mult =>
    if t.1.contains '.' then wrap64 (acc + fracContrib t.1 mult)
    else wrap64 (acc + wrap64 ((clampI64 (digitsToNat t.1) : Int) * mult))

/-- `parseUnitValuePairs` from the source: `none` when the regex finds no
match at all, otherwise the accumulated total (which, as in Go, is the sum
even if some values were skipped). -/
def parseUnitValuePairs (l : List Char) : Option Int :=
  let ms := scanMatches l
  if ms.isEmpty then none else some (ms.foldl termAdd 0)

/-- `ParseDuration` from the source, at the character-list level: trim, empty
check, leading `-` check, colon notation first, then unit-value pairs, else
`ErrUnparseable`. -/
def ParseDurationL (input : List Char) : Except WhenError Int :=
  let l := trimSpace input
  if l.isEmpty then .error .emptyInput
  else if l.head? = some '-' then .error .negativeValue
  else
    match parseColon l with
    | some secs => .ok secs
    | none =>
      match parseUnitValuePairs l with
      | some secs => .ok secs
      | none => .error .unparseable

/-- `ParseDuration` from the source (string boundary). -/
def ParseDuration (input : String) : Except WhenError Int :=
  ParseDurationL input.data

/-- Civil date (proleptic Gregorian year, month, day) of a day count since
1970-01-01, as computed by Go's `time` package for `time.Unix(ts, 0).UTC()`.
(Go's internal epoch-offset additions can wrap for timestamps within about
`2 ^ 36` seconds of the `int64` limits; that fringe is not modelled and no
claim depends on it — both sides of every theorem use this same function.) -/
def civilFromDays (z0 : Int) : Int × Nat × Nat :=
  let z := z0 + 719468
  let era : Int := z.fdiv 146097
  let doe : Nat := (z - era * 146097).toNat
  let yoe : Nat := (doe - doe / 1460 + doe / 36524 - doe / 146096) / 365
  let y : Int := (yoe : Int) + era * 400
  let doy : Nat := doe - (365 * yoe + yoe / 4 - yoe / 100)
  let mp : Nat := (5 * doy + 2) / 153
  let d : Nat := doy - (153 * mp + 2) / 5 + 1
  let m : Nat := if mp < 10 then mp + 3 else mp - 9
  (if m ≤ 2 then y + 1 else y, m, d)

/-- Day index (days since the Unix epoch) of the UTC midnight truncation of a
timestamp: UTC civil days align with multiples of 86400. -/
def epochDays (ts : Int) : Int := ts.fdiv 86400

/-- `time.Weekday.String()` names, indexed Sunday = 0 as in Go. -/
def weekdayNames : List String :=
  ["Sunday", "Monday", "Tuesday", "Wednesday", "Thursday", "Friday", "Saturday"]

/-- Weekday name of a day index (day 0, 1970-01-01, is a Thursday). -/
def weekdayName (z : Int) : String :=
  weekdayNames.getD ((z + 4).emod 7).toNat ""

/-- `time.Month.String()` names, indexed January = 1 as in Go. -/
def monthNames : List String :=
  ["January", "February", "March", "April", "May", "June", "July",
   "August", "September", "October", "November", "December"]

/-- Month name of a 1-based month number. -/
def monthName (m : Nat) : String := monthNames.getD (m - 1) ""

/-- Zero-padding to width 4 of Go's year layout `2006`. -/
def pad4 (n : Nat) : List Char :=
  List.replicate (4 - (itoaL n).length) '0' ++ itoaL n

/-- Year rendering of Go's layout `2006` (zero-padded to four digits,
negative years with a sign). -/
def yearString (y : Int) : String :=
  if y < 0 then "-" ++ String.mk (pad4 (-y).toNat) else String.mk (pad4 y.toNat)

/-- The day difference computed by the source's
`int(tsDay.Sub(refDay).Hours() / 24)`: exact for differences up to ±106751
days; beyond that `time.Time.Sub` saturates at ±(2^63 - 1) ns and the
float64 hour division truncates to ±106751 (which the bucket switch treats
identically to the true out-of-range difference). -/
def dayDiffClamped (ts reference : Int) : Int :=
  max (-106751) (min 106751 (epochDays ts - epochDays reference))

/-- `HumanDate` from the source.  The Go function takes the reference as an
optional variadic argument defaulting to the timestamp; the embedding takes
it explicitly (`HumanDate t t` is the no-reference call). -/
def HumanDate (timestamp : Int) (reference : Int) : String :=
  let tsDay := epochDays timestamp
  let refDay := epochDays reference
  let dayDiff := dayDiffClamped timestamp reference
  if dayDiff = 0 then "Today"
  else if dayDiff = -1 then "Yesterday"
  else if dayDiff = 1 then "Tomorrow"
  else if -6 ≤ dayDiff ∧ dayDiff ≤ -2 then "Last " ++ weekdayName tsDay
  else if 2 ≤ dayDiff ∧ dayDiff ≤ 6 then "This " ++ weekdayName tsDay
  else
    let c := civilFromDays tsDay
    let r := civilFromDays refDay
    if c.1 = r.1 then monthName c.2.1 ++ " " ++ itoa c.2.2
    else monthName c.2.1 ++ " " ++ itoa c.2.2 ++ ", " ++ yearString c.1

/-- The source's `DateRange`: an unimplemented stub that ignores both
instants and returns the empty string (the section of the source reads
`func DateRange(start, end time.Time) string { return "" }`). -/
def DateRange (_start : Int) (_stop : Int) : String := ""

/-! ### Arithmetic and list groundwork -/

lemma wrap64_small {x : Int} (h1 : -(2 ^ 63) ≤ x) (h2 : x < 2 ^ 63) : wrap64 x = x := by
  unfold wrap64
  have h : (x + 2 ^ 63) % 2 ^ 64 = x + 2 ^ 63 := Int.emod_eq_of_lt (by omega) (by omega)
  omega

lemma wrap64_zero : wrap64 0 = 0 := wrap64_small (by norm_num) (by norm_num)

lemma wrap64_add_left (a b : Int) : wrap64 (wrap64 a + b) = wrap64 (a + b) := by
  unfold wrap64
  have h : (a + 2 ^ 63) % 2 ^ 64 - 2 ^ 63 + b + 2 ^ 63 = (a + 2 ^ 63) % 2 ^ 64 + b := by
    ring
  rw [h, Int.emod_add_emod]
  ring_nf

lemma wrap64_add_right (a b : Int) : wrap64 (a + wrap64 b) = wrap64 (a + b) := by
  rw [add_comm a, wrap64_add_left, add_comm]

lemma takeWhile_append_all {p : Char → Bool} {l₁ : List Char} (l₂ : List Char)
    (h : ∀ c ∈ l₁, p c = true) : (l₁ ++ l₂).takeWhile p = l₁ ++ l₂.takeWhile p := by
  induction l₁ with
  | nil => simp
  | cons c t ih =>
    have hc : p c = true := h c (by simp)
    simp only [List.cons_append, List.takeWhile_cons, hc, if_true]
    rw [ih fun x hx => h x (by simp [hx])]

lemma dropWhile_append_all {p : Char → Bool} {l₁ : List Char} (l₂ : List Char)
    (h : ∀ c ∈ l₁, p c = true) : (l₁ ++ l₂).dropWhile p = l₂.dropWhile p := by
  induction l₁ with
  | nil => simp
  | cons c t ih =>
    have hc : p c = true := h c (by simp)
    simp only [List.cons_append, List.dropWhile_cons, hc, if_true]
    exact ih fun x hx => h x (by simp [hx])

lemma takeWhile_cons_neg {p : Char → Bool} {c : Char} (l : List Char)
    (h : p c = false) : (c :: l).takeWhile p = [] := by
  simp [List.takeWhile_cons, h]

lemma dropWhile_cons_neg {p : Char → Bool} {c : Char} (l : List Char)
    (h : p c = false) : (c :: l).dropWhile p = c :: l := by
  simp [List.dropWhile_cons, h]

lemma trimSpace_eq_self {l : List Char}
    (h1 : ∀ c ∈ l.head?, isSpaceGo c = false)
    (h2 : ∀ c ∈ l.getLast?, isSpaceGo c = false) : trimSpace l = l := by
  unfold trimSpace
  have d1 : l.dropWhile isSpaceGo = l := by
    cases l with
    | nil => rfl
    | cons c t => exact dropWhile_cons_neg t (h1 c (by simp))
  rw [d1]
  have d2 : l.reverse.dropWhile isSpaceGo = l.reverse := by
    cases hr : l.reverse with
    | nil => rfl
    | cons c t =>
      refine dropWhile_cons_neg t (h2 c ?_)
      have hh : l.reverse.head? = some c := by rw [hr]; rfl
      rw [List.head?_reverse] at hh
      simp [hh]
  rw [d2, List.reverse_reverse]

lemma isSpaceGo_of_digit {c : Char} (h : isDigit c = true) : isSpaceGo c = false := by
  simp only [isDigit, Bool.and_eq_true, decide_eq_true_eq] at h
  simp only [isSpaceGo]
  simp only [Bool.or_eq_false_iff, Bool.and_eq_false_iff]
  refine ⟨⟨?_, ?_⟩, ?_⟩ <;> simp only [beq_eq_false_iff_ne, ne_eq, decide_eq_false_iff_not] <;>
    omega

lemma isSpaceRE_of_digit {c : Char} (h : isDigit c = true) : isSpaceRE c = false := by
  simp only [isDigit, Bool.and_eq_true, decide_eq_true_eq] at h
  simp only [isSpaceRE, Bool.or_eq_false_iff, beq_eq_false_iff_ne, ne_eq]
  constructor
  · constructor
    · constructor
      · constructor <;> · intro hc; rw [hc] at h; omega
      · intro hc; rw [hc] at h; omega
    · intro hc; rw [hc] at h; omega
  · intro hc; rw [hc] at h; omega

lemma digit_ne_dot {c : Char} (h : isDigit c = true) : c ≠ '.' := by
  rintro rfl; exact absurd h (by decide)

lemma digit_ne_colon {c : Char} (h : isDigit c = true) : c ≠ ':' := by
  rintro rfl; exact absurd h (by decide)

lemma digit_ne_dash {c : Char} (h : isDigit c = true) : c ≠ '-' := by
  rintro rfl; exact absurd h (by decide)

/-! ### itoa correctness -/

lemma digitsToNat_snoc (xs : List Char) (d : Char) :
    digitsToNat (xs ++ [d]) = 10 * digitsToNat xs + digitVal d := by
  unfold digitsToNat
  rw [List.foldl_append]
  rfl

lemma itoaCore_append (fuel : Nat) : ∀ n acc,
    itoaCore fuel n acc = itoaCore fuel n [] ++ acc := by
  induction fuel with
  | zero => intro n acc; rfl
  | succ f ih =>
    intro n acc
    simp only [itoaCore]
    by_cases h : n < 10
    · simp [h]
    · simp only [h, if_false]
      rw [ih (n / 10) (Char.ofNat (48 + n % 10) :: acc),
        ih (n / 10) [Char.ofNat (48 + n % 10)], List.append_assoc]
      rfl

lemma itoaCore_spec (fuel : Nat) : ∀ n, n < 10 ^ (fuel + 1) →
    (∀ c ∈ itoaCore (fuel + 1) n [], isDigit c = true) ∧
    digitsToNat (itoaCore (fuel + 1) n []) = n ∧ itoaCore (fuel + 1) n [] ≠ [] := by
  induction fuel with
  | zero =>
    intro n hn
    have h10 : n < 10 := by norm_num at hn; omega
    interval_cases n <;> exact ⟨by decide, by decide, by decide⟩
  | succ f ih =>
    intro n hn
    by_cases h : n < 10
    · have : itoaCore (f + 1 + 1) n [] = [Char.ofNat (48 + n % 10)] := by
        simp [itoaCore, h]
      rw [this]
      interval_cases n <;> exact ⟨by decide, by decide, by decide⟩
    · have step : itoaCore (f + 1 + 1) n [] =
          itoaCore (f + 1) (n / 10) [] ++ [Char.ofNat (48 + n % 10)] := by
        simp only [itoaCore, h, if_false]
        exact itoaCore_append (f + 1) (n / 10) [Char.ofNat (48 + n % 10)]
      have hdiv : n / 10 < 10 ^ (f + 1) := by
        rw [Nat.div_lt_iff_lt_mul (by norm_num)]
        calc n < 10 ^ (f + 1 + 1) := hn
          _ = 10 ^ (f + 1) * 10 := by ring
      obtain ⟨hd, hv, hne⟩ := ih (n / 10) hdiv
      have hmod : n % 10 < 10 := Nat.mod_lt _ (by norm_num)
      have hdig : isDigit (Char.ofNat (48 + n % 10)) = true ∧
          digitVal (Char.ofNat (48 + n % 10)) = n % 10 := by
        set k := n % 10 with hk
        interval_cases k <;> exact ⟨by decide, by decide⟩
      refine ⟨?_, ?_, ?_⟩
      · intro c hc
        rw [step] at hc
        rcases List.mem_append.1 hc with h1 | h1
        · exact hd c h1
        · simp at h1; rw [h1]; exact hdig.1
      · rw [step, digitsToNat_snoc, hv, hdig.2]; omega
      · rw [step]; simp

lemma itoaL_spec (n : Nat) :
    (∀ c ∈ itoaL n, isDigit c = true) ∧ digitsToNat (itoaL n) = n ∧ itoaL n ≠ [] := by
  unfold itoaL
  refine itoaCore_spec n n ?_
  calc n < 2 ^ n := Nat.lt_two_pow n
    _ ≤ 10 ^ n := Nat.pow_le_pow_left (by norm_num) n
    _ ≤ 10 ^ (n + 1) := Nat.pow_le_pow_right (by norm_num) (by omega)

lemma itoaL_digits {n : Nat} : ∀ c ∈ itoaL n, isDigit c = true := (itoaL_spec n).1

lemma digitsToNat_itoaL (n : Nat) : digitsToNat (itoaL n) = n := (itoaL_spec n).2.1

lemma itoaL_ne_nil (n : Nat) : itoaL n ≠ [] := (itoaL_spec n).2.2

/-! ### Claim theorems -/

/-- Claim C4: the "just now" bucket boundary is exact and half-open —
`TimeAgo(t, t+44)` is `"just now"`, `TimeAgo(t, t+45)` is `"1 minute ago"`,
and every gap of absolute value below 45 seconds (future gaps included)
yields `"just now"` with no sign wording. -/
theorem timeAgo_just_now_bucket (t : Int) :
    TimeAgo t (t + 44) = "just now" ∧ TimeAgo t (t + 45) = "1 minute ago" ∧
    ∀ g : Int, g.natAbs < 45 → TimeAgo t (t + g) = "just now" := by
  have h3 : ∀ g : Int, g.natAbs < 45 → TimeAgo t (t + g) = "just now" := by
    intro g hg
    have hgb : -45 < g ∧ g < 45 := by omega
    simp only [TimeAgo]
    have h1 : t + g - t = g := by ring
    rw [h1, wrap64_small (by omega) (by omega)]
    have hw : wrap64 (-g) = -g := wrap64_small (by omega) (by omega)
    rw [hw]
    have hcond : (if g < 0 then -g else g) < 45 := by split_ifs <;> omega
    rw [if_pos hcond]
  refine ⟨h3 44 (by decide), ?_, h3⟩
  simp only [TimeAgo]
  have h1 : t + 45 - t = (45 : Int) := by ring
  rw [h1]
  rfl

/-- Witness for C4 at `t = 0`. -/
theorem timeAgo_just_now_bucket_witness :
    TimeAgo 0 (0 + (-10)) = "just now" :=
  (timeAgo_just_now_bucket 0).2.2 (-10) (by decide)

/-- Claim C5: `Duration` fails with `NegativeDuration` exactly when the input
is negative, and a zero duration formats as `"0 seconds"` (verbose) or
`"0s"` (compact), distinguishable from the failure. -/
theorem duration_negative_iff (seconds : Int) (cfg : DurationConfig) :
    (Duration seconds cfg = .error .negativeDuration ↔ seconds < 0) ∧
    Duration 0 cfg = .ok (if cfg.compact then "0s" else "0 seconds") := by
  constructor
  · constructor
    · intro h
      by_contra hn
      push_neg at hn
      simp only [Duration, if_neg (not_lt.2 hn)] at h
      split_ifs at h
    · intro h; simp [Duration, h]
  · norm_num [Duration, decompose, unitTable]

/-- Witness for C5 at `seconds = -1`. -/
theorem duration_negative_iff_witness :
    Duration (-1) defaultConfig = .error .negativeDuration :=
  (duration_negative_iff (-1) defaultConfig).1.mpr (by decide)

lemma parseDuration_mk (l : List Char) : ParseDuration (String.mk l) = ParseDurationL l :=
  rfl

/-- Claim C7: the parser's error taxonomy — blank input gives `EmptyInput`, a
leading `-` after trimming gives `NegativeValue` before any numeric parsing,
and non-blank, non-negative input matching neither grammar (such as
`"banana"`) gives `Unparseable`. -/
theorem parseDuration_error_classes (s : String) :
    (trimSpace s.data = [] → ParseDuration s = .error .emptyInput) ∧
    (∀ c t, trimSpace s.data = c :: t → c = '-' → ParseDuration s = .error .negativeValue) ∧
    (trimSpace s.data ≠ [] → (trimSpace s.data).head? ≠ some '-' →
      parseColon (trimSpace s.data) = none → scanMatches (trimSpace s.data) = [] →
      ParseDuration s = .error .unparseable) ∧
    ParseDuration "" = .error .emptyInput ∧
    ParseDuration "   " = .error .emptyInput ∧
    ParseDuration "-5m" = .error .negativeValue ∧
    ParseDuration "banana" = .error .unparseable := by
  refine ⟨?_, ?_, ?_, rfl, rfl, rfl, rfl⟩
  · intro h
    show ParseDurationL s.data = _
    simp [ParseDurationL, h]
  · intro c t hct hc
    subst hc
    show ParseDurationL s.data = _
    simp [ParseDurationL, hct]
  · intro h1 h2 h3 h4
    show ParseDurationL s.data = _
    simp only [ParseDurationL, h3, parseUnitValuePairs, h4]
    rw [if_neg (by simpa [List.isEmpty_iff] using h1), if_neg h2]
    rfl

/-- Witness for C7 at the empty string. -/
theorem parseDuration_error_classes_witness :
    ParseDuration "" = .error .emptyInput :=
  (parseDuration_error_classes "").1 (by decide)

/-! ### Colon-notation lemmas -/

lemma digit_bounds {c : Char} (h : isDigit c = true) : digitVal c ≤ 9 := by
  simp only [isDigit, Bool.and_eq_true, decide_eq_true_eq] at h
  unfold digitVal
  omega

lemma colonFields_long (hs : List Char) (hne : hs ≠ []) (hd : ∀ c ∈ hs, isDigit c = true)
    (m1 m2 s1 s2 : Char) (hm1 : isDigit m1 = true) (hm2 : isDigit m2 = true)
    (hs1 : isDigit s1 = true) (hs2 : isDigit s2 = true) :
    colonFields (hs ++ ':' :: m1 :: m2 :: ':' :: s1 :: s2 :: []) =
      some (hs, (m1, m2), some (s1, s2)) := by
  unfold colonFields
  have ht : (hs ++ ':' :: m1 :: m2 :: ':' :: s1 :: s2 :: []).takeWhile isDigit = hs := by
    rw [takeWhile_append_all _ hd, takeWhile_cons_neg _ (by decide)]
    simp
  have hdw : (hs ++ ':' :: m1 :: m2 :: ':' :: s1 :: s2 :: []).dropWhile isDigit =
      ':' :: m1 :: m2 :: ':' :: s1 :: s2 :: [] := by
    rw [dropWhile_append_all _ hd, dropWhile_cons_neg _ (by decide)]
  rw [ht, hdw]
  simp [List.isEmpty_iff, hne, hm1, hm2, hs1, hs2]

lemma colonFields_short (hs : List Char) (hne : hs ≠ []) (hd : ∀ c ∈ hs, isDigit c = true)
    (m1 m2 : Char) (hm1 : isDigit m1 = true) (hm2 : isDigit m2 = true) :
    colonFields (hs ++ ':' :: m1 :: m2 :: []) = some (hs, (m1, m2), none) := by
  unfold colonFields
  have ht : (hs ++ ':' :: m1 :: m2 :: []).takeWhile isDigit = hs := by
    rw [takeWhile_append_all _ hd, takeWhile_cons_neg _ (by decide)]
    simp
  have hdw : (hs ++ ':' :: m1 :: m2 :: []).dropWhile isDigit = ':' :: m1 :: m2 :: [] := by
    rw [dropWhile_append_all _ hd, dropWhile_cons_neg _ (by decide)]
  rw [ht, hdw]
  simp [List.isEmpty_iff, hne, hm1, hm2]

lemma wrap64_colon_value (h m s : Nat) (hb : h * 3600 + m * 60 + s < 2 ^ 63) :
    wrap64 (wrap64 (wrap64 ((h : Int) * 3600) + wrap64 ((m : Int) * 60)) + (s : Int)) =
      ((h * 3600 + m * 60 + s : Nat) : Int) := by
  have hA : wrap64 ((h : Int) * 3600) = (h : Int) * 3600 :=
    wrap64_small (by push_cast; omega) (by push_cast; omega)
  have hB : wrap64 ((m : Int) * 60) = (m : Int) * 60 :=
    wrap64_small (by push_cast; omega) (by push_cast; omega)
  rw [hA, hB]
  have hC : wrap64 ((h : Int) * 3600 + (m : Int) * 60) = (h : Int) * 3600 + (m : Int) * 60 :=
    wrap64_small (by push_cast; omega) (by push_cast; omega)
  rw [hC]
  have hD : wrap64 ((h : Int) * 3600 + (m : Int) * 60 + (s : Int)) =
      (h : Int) * 3600 + (m : Int) * 60 + (s : Int) :=
    wrap64_small (by push_cast; omega) (by push_cast; omega)
  rw [hD]
  push_cast
  ring

/-- Claim C10 (implicit): colon-notation parsing applies no range check to
the two-digit minute or second fields — any `00`–`99` value is accepted in
either field and converted arithmetically, so `"0:99"` parses to `5940`
(minutes field) and `"0:00:99"` parses to `99` (seconds field). -/
theorem colon_no_range_check (d1 d2 : Char)
    (h1 : isDigit d1 = true) (h2 : isDigit d2 = true) :
    ParseDuration (String.mk ['0', ':', d1, d2]) =
      .ok (((10 * digitVal d1 + digitVal d2) * 60 : Nat) : Int) ∧
    ParseDuration (String.mk ['0', ':', '0', '0', ':', d1, d2]) =
      .ok ((10 * digitVal d1 + digitVal d2 : Nat) : Int) := by
  have hb1 := digit_bounds h1
  have hb2 := digit_bounds h2
  have hmv : digitsToNat [d1, d2] = 10 * digitVal d1 + digitVal d2 := by
    simp [digitsToNat, digitVal]
  have hhv : clampI64 (digitsToNat ['0']) = 0 := by decide
  constructor
  · have hshape : ['0', ':', d1, d2] = ['0'] ++ ':' :: d1 :: d2 :: [] := rfl
    have htrim : trimSpace ['0', ':', d1, d2] = ['0', ':', d1, d2] := by
      refine trimSpace_eq_self ?_ ?_
      · intro c hc
        simp only [List.head?] at hc
        simp at hc
        subst hc
        decide
      · intro c hc
        have : (['0', ':', d1, d2] : List Char).getLast? = some d2 := rfl
        rw [this] at hc
        simp at hc
        subst hc
        exact isSpaceGo_of_digit h2
    have hcf : colonFields ['0', ':', d1, d2] = some (['0'], (d1, d2), none) := by
      rw [hshape]
      exact colonFields_short ['0'] (by simp) (by intro c hc; simp at hc; subst hc; decide)
        d1 d2 h1 h2
    have hcolon : parseColon ['0', ':', d1, d2] = some
        (wrap64 (wrap64 (wrap64 (((0 : Nat) : Int) * 3600) +
          wrap64 (((10 * digitVal d1 + digitVal d2 : Nat) : Int) * 60)) + ((0 : Nat) : Int))) := by
      unfold parseColon
      rw [hcf]
      simp only [Option.map]
      rw [hmv, hhv]
      norm_num
    have hfin : wrap64 (wrap64 (wrap64 (((0 : Nat) : Int) * 3600) +
        wrap64 (((10 * digitVal d1 + digitVal d2 : Nat) : Int) * 60)) + ((0 : Nat) : Int)) =
        (((10 * digitVal d1 + digitVal d2) * 60 : Nat) : Int) := by
      have := wrap64_colon_value 0 (10 * digitVal d1 + digitVal d2) 0 (by omega)
      simpa using this
    rw [parseDuration_mk]
    simp only [ParseDurationL]
    rw [htrim]
    rw [if_neg (show ¬((['0', ':', d1, d2] : List Char).isEmpty = true) by simp)]
    rw [if_neg (show ¬((['0', ':', d1, d2] : List Char).head? = some '-') by simp)]
    rw [hcolon]
    exact congrArg Except.ok hfin
  · have hshape : ['0', ':', '0', '0', ':', d1, d2] =
        ['0'] ++ ':' :: '0' :: '0' :: ':' :: d1 :: d2 :: [] := rfl
    have htrim : trimSpace ['0', ':', '0', '0', ':', d1, d2] =
        ['0', ':', '0', '0', ':', d1, d2] := by
      refine trimSpace_eq_self ?_ ?_
      · intro c hc
        simp only [List.head?] at hc
        simp at hc
        subst hc
        decide
      · intro c hc
        have : (['0', ':', '0', '0', ':', d1, d2] : List Char).getLast? = some d2 := rfl
        rw [this] at hc
        simp at hc
        subst hc
        exact isSpaceGo_of_digit h2
    have hcf : colonFields ['0', ':', '0', '0', ':', d1, d2] =
        some (['0'], ('0', '0'), some (d1, d2)) := by
      rw [hshape]
      exact colonFields_long ['0'] (by simp) (by intro c hc; simp at hc; subst hc; decide)
        '0' '0' d1 d2 (by decide) (by decide) h1 h2
    have hcolon : parseColon ['0', ':', '0', '0', ':', d1, d2] = some
        (wrap64 (wrap64 (wrap64 (((0 : Nat) : Int) * 3600) +
          wrap64 (((0 : Nat) : Int) * 60)) +
          ((10 * digitVal d1 + digitVal d2 : Nat) : Int))) := by
      unfold parseColon
      rw [hcf]
      simp only [Option.map]
      refine congrArg some ?_
      show wrap64 (wrap64 (wrap64 ((clampI64 (digitsToNat ['0']) : Int) * 3600) +
        wrap64 ((digitsToNat ['0', '0'] : Int) * 60)) +
        ((digitsToNat [d1, d2] : Nat) : Int)) = _
      rw [hmv, hhv, show digitsToNat ['0', '0'] = 0 from by decide]
    have hfin : wrap64 (wrap64 (wrap64 (((0 : Nat) : Int) * 3600) +
        wrap64 (((0 : Nat) : Int) * 60)) +
        ((10 * digitVal d1 + digitVal d2 : Nat) : Int)) =
        ((10 * digitVal d1 + digitVal d2 : Nat) : Int) := by
      have := wrap64_colon_value 0 0 (10 * digitVal d1 + digitVal d2) (by omega)
      simpa using this
    rw [parseDuration_mk]
    simp only [ParseDurationL]
    rw [htrim]
    rw [if_neg (show ¬((['0', ':', '0', '0', ':', d1, d2] : List Char).isEmpty = true) by simp)]
    rw [if_neg
      (show ¬((['0', ':', '0', '0', ':', d1, d2] : List Char).head? = some '-') by simp)]
    rw [hcolon]
    exact congrArg Except.ok hfin

/-- Witness for C10 at `"0:99"` (minutes) and `"0:00:99"` (seconds). -/
theorem colon_no_range_check_witness :
    ParseDuration "0:99" = .ok 5940 ∧ ParseDuration "0:00:99" = .ok 99 := by
  have h := colon_no_range_check '9' '9' (by decide) (by decide)
  exact ⟨by simpa using h.1, by simpa using h.2⟩

lemma trimSpace_colon_form (hs : List Char) (hne : hs ≠ []) (hd : ∀ c ∈ hs, isDigit c = true)
    (rest : List Char) (hrne : rest ≠ []) (hrl : ∀ c ∈ rest.getLast?, isDigit c = true) :
    trimSpace (hs ++ rest) = hs ++ rest := by
  refine trimSpace_eq_self ?_ ?_
  · intro c hc
    obtain ⟨a, t, rfl⟩ := List.exists_cons_of_ne_nil hne
    simp only [List.cons_append, List.head?_cons, Option.mem_def, Option.some.injEq] at hc
    subst hc
    exact isSpaceGo_of_digit (hd a (by simp))
  · intro c hc
    rw [List.getLast?_append_of_ne_nil _ hrne] at hc
    exact isSpaceGo_of_digit (hrl c hc)

/-- Claim C8, amended: every trimmed input of the exact shape
`hours:minutes[:seconds]` (minutes and seconds exactly two digits, hours one
or more digits) whose mathematical total `hours*3600 + minutes*60 + seconds`
is below `2 ^ 63` parses by colon notation — which runs before and never
combines with the unit-suffix grammar — to that total; in particular
`"1:30:00"` parses to `5400`.  The bound is forced by the counterexample for
this claim: beyond it the source's `int64` multiply-accumulate wraps and the
literal formula fails. -/
theorem parse_colon_forms (hs : List Char) (hne : hs ≠ []) (hd : ∀ c ∈ hs, isDigit c = true)
    (m1 m2 s1 s2 : Char) (hm1 : isDigit m1 = true) (hm2 : isDigit m2 = true)
    (hs1 : isDigit s1 = true) (hs2 : isDigit s2 = true)
    (hb : digitsToNat hs * 3600 + (10 * digitVal m1 + digitVal m2) * 60 +
      (10 * digitVal s1 + digitVal s2) < 2 ^ 63) :
    ParseDuration (String.mk (hs ++ ':' :: m1 :: m2 :: ':' :: s1 :: s2 :: [])) =
      .ok ((digitsToNat hs * 3600 + (10 * digitVal m1 + digitVal m2) * 60 +
        (10 * digitVal s1 + digitVal s2) : Nat) : Int) ∧
    ParseDuration (String.mk (hs ++ ':' :: m1 :: m2 :: [])) =
      .ok ((digitsToNat hs * 3600 + (10 * digitVal m1 + digitVal m2) * 60 : Nat) : Int) := by
  have hclamp : clampI64 (digitsToNat hs) = digitsToNat hs := by
    unfold clampI64
    omega
  have hm : digitsToNat [m1, m2] = 10 * digitVal m1 + digitVal m2 := by
    simp [digitsToNat, digitVal]
  have hsv : digitsToNat [s1, s2] = 10 * digitVal s1 + digitVal s2 := by
    simp [digitsToNat, digitVal]
  have hnotempty : ∀ rest : List Char, ¬((hs ++ rest).isEmpty = true) := by
    intro rest
    simp [List.isEmpty_iff, hne]
  have hnotdash : ∀ rest : List Char, ¬((hs ++ rest).head? = some '-') := by
    intro rest h
    obtain ⟨a, t, rfl⟩ := List.exists_cons_of_ne_nil hne
    simp only [List.cons_append, List.head?_cons, Option.some.injEq] at h
    exact digit_ne_dash (hd a (by simp)) h
  constructor
  · have htrim : trimSpace (hs ++ ':' :: m1 :: m2 :: ':' :: s1 :: s2 :: []) =
        hs ++ ':' :: m1 :: m2 :: ':' :: s1 :: s2 :: [] := by
      refine trimSpace_colon_form hs hne hd _ (by simp) ?_
      intro c hc
      have : (':' :: m1 :: m2 :: ':' :: s1 :: s2 :: []).getLast? = some s2 := rfl
      rw [this] at hc
      simp only [Option.mem_def, Option.some.injEq] at hc
      subst hc; exact hs2
    have hcolon : parseColon (hs ++ ':' :: m1 :: m2 :: ':' :: s1 :: s2 :: []) =
        some (wrap64 (wrap64 (wrap64 ((digitsToNat hs : Int) * 3600) +
          wrap64 (((10 * digitVal m1 + digitVal m2 : Nat) : Int) * 60)) +
          ((10 * digitVal s1 + digitVal s2 : Nat) : Int))) := by
      unfold parseColon
      rw [colonFields_long hs hne hd m1 m2 s1 s2 hm1 hm2 hs1 hs2]
      simp only [Option.map]
      rw [hm, hsv, hclamp]
    rw [parseDuration_mk]
    simp only [ParseDurationL]
    rw [htrim, if_neg (hnotempty _), if_neg (hnotdash _), hcolon]
    exact congrArg Except.ok (wrap64_colon_value _ _ _ hb)
  · have htrim : trimSpace (hs ++ ':' :: m1 :: m2 :: []) = hs ++ ':' :: m1 :: m2 :: [] := by
      refine trimSpace_colon_form hs hne hd _ (by simp) ?_
      intro c hc
      have : (':' :: m1 :: m2 :: []).getLast? = some m2 := rfl
      rw [this] at hc
      simp only [Option.mem_def, Option.some.injEq] at hc
      subst hc; exact hm2
    have hcolon : parseColon (hs ++ ':' :: m1 :: m2 :: []) =
        some (wrap64 (wrap64 (wrap64 ((digitsToNat hs : Int) * 3600) +
          wrap64 (((10 * digitVal m1 + digitVal m2 : Nat) : Int) * 60)) + ((0 : Nat) : Int))) := by
      unfold parseColon
      rw [colonFields_short hs hne hd m1 m2 hm1 hm2]
      simp only [Option.map]
      rw [hm, hclamp]
      norm_num
    rw [parseDuration_mk]
    simp only [ParseDurationL]
    rw [htrim, if_neg (hnotempty _), if_neg (hnotdash _), hcolon]
    refine congrArg Except.ok ?_
    have := wrap64_colon_value (digitsToNat hs) (10 * digitVal m1 + digitVal m2) 0 (by omega)
    simpa using this

/-- Witness for C8 at `"1:30:00"`. -/
theorem parse_colon_forms_witness : ParseDuration "1:30:00" = .ok 5400 := by
  have h := (parse_colon_forms ['1'] (by simp) (by intro c hc; simp at hc; subst hc; decide)
    '3' '0' '0' '0' (by decide) (by decide) (by decide) (by decide) (by decide)).1
  simpa using h

/-- Counterexample to C8 as stated: `"2562047788015216:00"` wholly matches
the `hours:minutes` grammar (a 16-digit hour numeral and two-digit minutes),
but the source's `int64` multiply `hours*3600` wraps, so the parse succeeds
with a negative value instead of the literal
`hours*3600 + minutes*60 = 9223372036854777600`. -/
theorem colon_hours_overflow :
    ParseDuration "2562047788015216:00" = .ok (-9223372036854774016) ∧
    ((-9223372036854774016 : Int) ≠ 2562047788015216 * 3600 + 0 * 60) :=
  ⟨rfl, by decide⟩

/-! ### Duration decomposition lemmas -/

/-- Total seconds represented by a decomposed part list. -/
def partsSum (l : List (Nat × TUnit)) : Nat := (l.map fun p => p.1 * p.2.seconds).sum

/-- The remainder left after the greedy loop has processed all units. -/
def remAfter (r : Nat) (units : List TUnit) : Nat :=
  units.foldl (fun rem u => if rem ≥ u.seconds then rem % u.seconds else rem) r

lemma decompose_sum_aux : ∀ (units : List TUnit) (r : Nat),
    partsSum (decompose r units) + remAfter r units = r := by
  intro units
  induction units with
  | nil => intro r; simp [decompose, remAfter, partsSum]
  | cons u rest ih =>
    intro r
    simp only [decompose, remAfter, List.foldl]
    by_cases h : r ≥ u.seconds
    · rw [if_pos h, if_pos h]
      simp only [partsSum, List.map_cons, List.sum_cons]
      have hrec := ih (r % u.seconds)
      unfold remAfter at hrec
      unfold partsSum at hrec
      rw [add_assoc, hrec]
      exact Nat.div_add_mod' r u.seconds
    · rw [if_neg h, if_neg h]
      exact ih r

lemma remAfter_append (r : Nat) (us vs : List TUnit) :
    remAfter r (us ++ vs) = remAfter (remAfter r us) vs := by
  unfold remAfter
  rw [List.foldl_append]

lemma remAfter_one (x : Nat) : remAfter x [⟨1, "s", "second"⟩] = 0 := by
  unfold remAfter
  simp only [List.foldl]
  split_ifs <;> omega

lemma remAfter_unitTable (r : Nat) : remAfter r unitTable = 0 := by
  have hsplit : unitTable =
      [⟨365 * 86400, "y", "year"⟩, ⟨30 * 86400, "mo", "month"⟩, ⟨86400, "d", "day"⟩,
       ⟨3600, "h", "hour"⟩, ⟨60, "m", "minute"⟩] ++ [⟨1, "s", "second"⟩] := rfl
  rw [hsplit, remAfter_append, remAfter_one]

lemma decompose_sum (r : Nat) : partsSum (decompose r unitTable) = r := by
  have h := decompose_sum_aux unitTable r
  have hrem : remAfter r unitTable = 0 := remAfter_unitTable r
  omega

lemma decompose_pos : ∀ (units : List TUnit) (r : Nat), (∀ u ∈ units, 0 < u.seconds) →
    ∀ p ∈ decompose r units, 1 ≤ p.1 := by
  intro units
  induction units with
  | nil =>
    intro r _ p hp
    simp [decompose] at hp
  | cons u rest ih =>
    intro r hu p hp
    simp only [decompose] at hp
    by_cases h : r ≥ u.seconds
    · rw [if_pos h] at hp
      rcases List.mem_cons.1 hp with h1 | h1
      · subst h1
        exact (Nat.one_le_div_iff (hu u (by simp))).mpr h
      · exact ih (r % u.seconds) (fun v hv => hu v (by simp [hv])) p h1
    · rw [if_neg h] at hp
      exact ih r (fun v hv => hu v (by simp [hv])) p hp

/-- The rendered output of `Duration` for non-negative input, as a single
equation: the zero string when the part list is empty, and otherwise the
joined rendering of the part list truncated to `maxUnits` entries when
`maxUnits` is positive. -/
lemma duration_shape (s : Nat) (cfg : DurationConfig) :
    Duration (s : Int) cfg = .ok (
      if (decompose s unitTable).isEmpty then (if cfg.compact then "0s" else "0 seconds")
      else joinSep (if cfg.compact then " " else ", ")
        ((if 0 < cfg.maxUnits then (decompose s unitTable).take cfg.maxUnits.toNat
          else decompose s unitTable).map (renderPart cfg.compact))) := by
  simp only [Duration]
  rw [if_neg (by omega : ¬((s : Int) < 0)), Int.toNat_natCast]
  by_cases hemp : (decompose s unitTable).isEmpty = true
  · rw [if_pos hemp, if_pos hemp]
  · rw [if_neg hemp, if_neg hemp]
    refine congrArg Except.ok (congrArg _ (congrArg (List.map (renderPart cfg.compact)) ?_))
    by_cases hpos : 0 < cfg.maxUnits
    · by_cases hlen : cfg.maxUnits < ((decompose s unitTable).length : Int)
      · rw [if_pos (by simp [hpos, hlen]), if_pos hpos]
      · rw [if_neg (by simp [hlen]), if_pos hpos,
          List.take_of_length_le (by omega)]
    · rw [if_neg (by simp [hpos]), if_neg hpos]

/-- Claim C6: `Duration` decomposes greedily against the descending unit
table, keeps only the first `maxUnits` non-zero units without reordering
(all of them when `maxUnits ≤ 0`), and joins with `", "` plus pluralisation
in verbose mode or a single space plus suffixes in compact mode; in
particular `Duration 9000` is `"2 hours, 30 minutes"` verbose and `"2h 30m"`
compact.  The first two conjuncts state that the emitted counts are the
non-zero greedy quotients: every part has count at least one, and the full
part list reconstructs the input exactly. -/
theorem duration_format_spec (s : Nat) (cfg : DurationConfig) :
    (∀ p ∈ decompose s unitTable, 1 ≤ p.1) ∧
    partsSum (decompose s unitTable) = s ∧
    Duration (s : Int) cfg = .ok (
      if (decompose s unitTable).isEmpty then (if cfg.compact then "0s" else "0 seconds")
      else joinSep (if cfg.compact then " " else ", ")
        ((if 0 < cfg.maxUnits then (decompose s unitTable).take cfg.maxUnits.toNat
          else decompose s unitTable).map (renderPart cfg.compact))) ∧
    Duration 9000 defaultConfig = .ok "2 hours, 30 minutes" ∧
    Duration 9000 ⟨true, 2⟩ = .ok "2h 30m" :=
  ⟨decompose_pos unitTable s (by decide), decompose_sum s, duration_shape s cfg, rfl, rfl⟩

/-- Witness for C6: the hypothesis-bearing conjunct applied at the concrete
part `(2, hour)` of `decompose 9000`, together with the concrete rendering. -/
theorem duration_format_spec_witness :
    1 ≤ (2 : Nat) ∧ Duration 9000 defaultConfig = .ok "2 hours, 30 minutes" :=
  ⟨(duration_format_spec 9000 defaultConfig).1 (2, ⟨3600, "h", "hour"⟩) (by decide),
   (duration_format_spec 9000 defaultConfig).2.2.2.1⟩

/-! ### HumanDate and DateRange claims -/

/-- Claim C9: `HumanDate` compares calendar days truncated to midnight and
returns "Today", "Yesterday", "Tomorrow" for day differences 0, -1, +1,
"Last {weekday}" for differences in [-6,-2], "This {weekday}" for [2,6], and
otherwise a month-day date with the year appended exactly when the instant's
year differs from the reference's; weekday and month names come from the
instant's own calendar date. -/
theorem humanDate_buckets (ts reference : Int) :
    (dayDiffClamped ts reference = 0 → HumanDate ts reference = "Today") ∧
    (dayDiffClamped ts reference = -1 → HumanDate ts reference = "Yesterday") ∧
    (dayDiffClamped ts reference = 1 → HumanDate ts reference = "Tomorrow") ∧
    (-6 ≤ dayDiffClamped ts reference ∧ dayDiffClamped ts reference ≤ -2 →
      HumanDate ts reference = "Last " ++ weekdayName (epochDays ts)) ∧
    (2 ≤ dayDiffClamped ts reference ∧ dayDiffClamped ts reference ≤ 6 →
      HumanDate ts reference = "This " ++ weekdayName (epochDays ts)) ∧
    (dayDiffClamped ts reference < -6 ∨ 6 < dayDiffClamped ts reference →
      HumanDate ts reference =
        (if (civilFromDays (epochDays ts)).1 = (civilFromDays (epochDays reference)).1
         then monthName (civilFromDays (epochDays ts)).2.1 ++ " " ++
           itoa (civilFromDays (epochDays ts)).2.2
         else monthName (civilFromDays (epochDays ts)).2.1 ++ " " ++
           itoa (civilFromDays (epochDays ts)).2.2 ++ ", " ++
           yearString (civilFromDays (epochDays ts)).1)) := by
  refine ⟨?_, ?_, ?_, ?_, ?_, ?_⟩ <;> intro h <;> simp only [HumanDate]
  · rw [if_pos h]
  · rw [if_neg (by omega), if_pos h]
  · rw [if_neg (by omega), if_neg (by omega), if_pos h]
  · rw [if_neg (by omega), if_neg (by omega), if_neg (by omega), if_pos h]
  · rw [if_neg (by omega), if_neg (by omega), if_neg (by omega), if_neg (by omega),
      if_pos h]
  · rw [if_neg (by omega), if_neg (by omega), if_neg (by omega), if_neg (by omega),
      if_neg (by omega)]

/-- Witness for C9: the "Today" bucket at the epoch and the "Last {weekday}"
bucket three days back (1969-12-29 was a Monday). -/
theorem humanDate_buckets_witness :
    HumanDate 0 0 = "Today" ∧ HumanDate (-259200) 0 = "Last Monday" :=
  ⟨(humanDate_buckets 0 0).1 (by decide),
   ((humanDate_buckets (-259200) 0).2.2.2.1 (by decide)).trans (by decide)⟩

/-- Claim C2: code bug.  The source's `DateRange` is an unimplemented stub
that ignores both instants and returns the empty string, so none of the
claimed calendar labels is ever produced.  At the claim's own examples —
jan1 1970 (epoch second 0) and jan5 1970 (epoch second 345600) — the code
returns `""` for both the same-month range and the single-day case, and the
empty string is neither the single-month dash range nor a HumanDate-style
day label. -/
theorem dateRange_stub :
    (∀ start stop : Int, DateRange start stop = "") ∧
    DateRange 0 345600 = "" ∧ DateRange 0 0 = "" ∧
    ("" : String) ≠ "January 1–5, 1970" ∧ ("" : String) ≠ "January 1, 1970" :=
  ⟨fun _ _ => rfl, rfl, rfl, by decide, by decide⟩

/-! ### ParseDuration totals: wrapped versus exact -/

/-- The exact (unwrapped) total of a colon-notation parse: the clamped hour
numeral times 3600 plus minutes times 60 plus seconds, as a natural
number. -/
def colonRaw (l : List Char) : Option Nat :=
  (colonFields l).map fun f =>
    clampI64 (digitsToNat f.1) * 3600 + digitsToNat [f.2.1.1, f.2.1.2] * 60 +
      (match f.2.2 with
       | none => 0
       | some s => digitsToNat [s.1, s.2])

/-- The exact (unwrapped) contribution of one integer-valued term of the
unit-value grammar. -/
def termRaw (t : List Char × List Char) : Nat :=
  match lookupMult t.2 with
  | none => 0
  | some mult => clampI64 (digitsToNat t.1) * mult

/-- The exact (unwrapped) total of the unit-value grammar over an input. -/
def unitsRaw (l : List Char) : Nat := ((scanMatches l).map termRaw).sum

lemma wrap64_three (a b c : Int) :
    wrap64 (wrap64 (wrap64 a + wrap64 b) + c) = wrap64 (a + b + c) := by
  rw [wrap64_add_left, add_assoc, wrap64_add_left, add_comm a, add_assoc, wrap64_add_left]
  exact congrArg wrap64 (by ring)

lemma parseColon_eq_wrap_colonRaw (l : List Char) :
    parseColon l = (colonRaw l).map fun n => wrap64 (n : Int) := by
  unfold parseColon colonRaw
  cases hf : colonFields l with
  | none => rfl
  | some f =>
    obtain ⟨hs, ⟨m1, m2⟩, so⟩ := f
    simp only [Option.map]
    refine congrArg some ?_
    cases so with
    | none =>
      rw [wrap64_three]
      exact congrArg wrap64 (by push_cast; ring)
    | some p =>
      rw [wrap64_three]
      exact congrArg wrap64 (by push_cast; ring)

lemma foldl_termAdd (ms : List (List Char × List Char))
    (hf : ∀ t ∈ ms, t.1.contains '.' = false) :
    ∀ a : Int, ms.foldl termAdd (wrap64 a) = wrap64 (a + ((ms.map termRaw).sum : Int)) := by
  induction ms with
  | nil => intro a; simp
  | cons t ms ih =>
    intro a
    have ht := hf t (by simp)
    have hrest : ∀ x ∈ ms, x.1.contains '.' = false := fun x hx => hf x (by simp [hx])
    simp only [List.foldl_cons, List.map_cons, List.sum_cons]
    cases hl : lookupMult t.2 with
    | none =>
      have h1 : termAdd (wrap64 a) t = wrap64 a := by simp [termAdd, hl]
      have h2 : termRaw t = 0 := by simp [termRaw, hl]
      rw [h1, ih hrest a, h2]
      norm_num
    | some mult =>
      have h1 : termAdd (wrap64 a) t = wrap64 (a + (termRaw t : Int)) := by
        simp only [termAdd, hl, ht, Bool.false_eq_true, if_false]
        rw [wrap64_add_left, wrap64_add_right]
        refine congrArg wrap64 ?_
        simp [termRaw, hl]
      rw [h1, ih hrest (a + (termRaw t : Int))]
      refine congrArg wrap64 ?_
      push_cast
      ring

/-- Claim C3 counterexample: with 64-bit wrapping arithmetic the summed
terms can overflow, and `ParseDuration` then succeeds with a negative
value — `"9223372036854775807s 1s"` parses to `MinInt64`, which is
negative. -/
theorem parse_overflow_negative :
    ParseDuration "9223372036854775807s 1s" = .ok (-9223372036854775808) ∧
    (-9223372036854775808 : Int) < 0 := ⟨rfl, by decide⟩

/-- Claim C3 amended: whenever `ParseDuration` succeeds, the result is
non-negative provided the exact totals stay below `2 ^ 63` and no term
carries a decimal fraction; the wrapping `int64` accumulation of the source
is then exact.  (The unamended claim fails: large sums wrap negative, see
the counterexample.) -/
theorem parse_success_nonneg (s : String) (v : Int)
    (hcolon : ∀ n ∈ colonRaw (trimSpace s.data), (n : Int) < 2 ^ 63)
    (hfrac : ∀ t ∈ scanMatches (trimSpace s.data), t.1.contains '.' = false)
    (hunits : (unitsRaw (trimSpace s.data) : Int) < 2 ^ 63)
    (hok : ParseDuration s = .ok v) : 0 ≤ v := by
  rw [show ParseDuration s = ParseDurationL s.data from rfl] at hok
  unfold ParseDurationL at hok
  set l := trimSpace s.data with hl
  by_cases hemp : l.isEmpty = true
  · rw [if_pos hemp] at hok
    exact absurd hok (by simp)
  · rw [if_neg hemp] at hok
    by_cases hdash : l.head? = some '-'
    · rw [if_pos hdash] at hok
      exact absurd hok (by simp)
    · rw [if_neg hdash] at hok
      rw [parseColon_eq_wrap_colonRaw] at hok
      cases hcr : colonRaw l with
      | some n =>
        rw [hcr] at hok
        have hok2 : (Except.ok (wrap64 (n : Int)) : Except WhenError Int) = Except.ok v := hok
        have hv : wrap64 (n : Int) = v := by injection hok2
        rw [← hv, wrap64_small (by omega) (hcolon n (by simp [hcr]))]
        omega
      | none =>
        rw [hcr] at hok
        have hok2 : (match parseUnitValuePairs l with
            | some secs => (Except.ok secs : Except WhenError Int)
            | none => Except.error WhenError.unparseable) = Except.ok v := hok
        cases hpu : parseUnitValuePairs l with
        | none =>
          rw [hpu] at hok2
          exact absurd hok2 (by simp)
        | some x =>
          rw [hpu] at hok2
          have hv : x = v := by injection hok2
          unfold parseUnitValuePairs at hpu
          by_cases hms : (scanMatches l).isEmpty = true
          · rw [if_pos hms] at hpu
            exact absurd hpu (by simp)
          · rw [if_neg hms] at hpu
            have hx : (scanMatches l).foldl termAdd 0 = x := by injection hpu
            have hfold := foldl_termAdd (scanMatches l) hfrac 0
            rw [wrap64_zero] at hfold
            rw [← hv, ← hx, hfold, zero_add]
            have h2 : (((scanMatches l).map termRaw).sum : Int) < 2 ^ 63 := hunits
            rw [wrap64_small (by omega) h2]
            omega

/-- Witness for the amended C3 at `"2h30m"`. -/
theorem parse_success_nonneg_witness : (0 : Int) ≤ 9000 :=
  parse_success_nonneg "2h30m" 9000
    (by
      intro n hn
      rw [show colonRaw (trimSpace ("2h30m".data)) = none from rfl] at hn
      simp at hn)
    (by decide) (by decide) rfl

/-! ### Scanner structure lemmas -/

/-- Claim C1 counterexample: the formatter emits `"1 year"` for an exact
year, but the parser's unit grammar has no year alias, so the round trip
fails outright instead of reconstructing a value. -/
theorem format_parse_year_mismatch :
    Duration 31536000 defaultConfig = .ok "1 year" ∧
    ParseDuration "1 year" = .error .unparseable := ⟨rfl, rfl⟩

lemma findSome?_exists {α β : Type} (f : α → Option β) :
    ∀ (l : List α) (b : β), l.findSome? f = some b → ∃ a ∈ l, f a = some b := by
  intro l
  induction l with
  | nil =>
    intro b h
    simp [List.findSome?] at h
  | cons x xs ih =>
    intro b h
    rw [List.findSome?] at h
    cases hfx : f x with
    | some y =>
      rw [hfx] at h
      exact ⟨x, by simp, by rw [hfx]; exact h⟩
    | none =>
      rw [hfx] at h
      obtain ⟨a, ha, hfa⟩ := ih b h
      exact ⟨a, by simp [ha], hfa⟩

lemma matchLit_decomp : ∀ (p l : List Char) (mr : List Char × List Char),
    matchLit p l = some mr → l = mr.1 ++ mr.2 ∧ mr.1.length = p.length := by
  intro p
  induction p with
  | nil =>
    intro l mr h
    simp only [matchLit, Option.some.injEq] at h
    rw [← h]
    simp
  | cons pc ps ih =>
    intro l mr h
    cases l with
    | nil => exact absurd h (by simp [matchLit])
    | cons c cs =>
      simp only [matchLit] at h
      split_ifs at h with hc
      cases hm : matchLit ps cs with
      | none =>
        rw [hm] at h
        exact absurd h (by simp)
      | some pr =>
        rw [hm] at h
        simp only [Option.map, Option.some.injEq] at h
        obtain ⟨h1, h2⟩ := ih cs pr hm
        rw [← h]
        refine ⟨?_, ?_⟩
        · simp [h1]
        · simp [h2]

lemma matchLitOptS_decomp (p l : List Char) (mr : List Char × List Char)
    (h : matchLitOptS p l = some mr) : l = mr.1 ++ mr.2 ∧ p.length ≤ mr.1.length := by
  unfold matchLitOptS at h
  cases hm : matchLit p l with
  | none =>
    rw [hm] at h
    exact absurd h (by simp)
  | some pr =>
    rw [hm] at h
    simp only [Option.map, Option.some.injEq] at h
    obtain ⟨h1, h2⟩ := matchLit_decomp p l pr hm
    obtain ⟨m, r⟩ := pr
    cases r with
    | nil =>
      rw [← h]
      exact ⟨h1, by simp [h2]⟩
    | cons c cs =>
      have h' : (if toLowerChar c = 's' then (m ++ [c], cs) else (m, c :: cs)) = mr := h
      by_cases hs : toLowerChar c = 's'
      · rw [if_pos hs] at h'
        rw [← h']
        constructor
        · simp only [List.append_assoc, List.singleton_append]
          exact h1
        · have h2' : m.length = p.length := h2
          simp
          omega
      · rw [if_neg hs] at h'
        rw [← h']
        exact ⟨h1, by simp [h2]⟩

lemma matchUnit_decomp (l : List Char) (ur : List Char × List Char)
    (h : matchUnit l = some ur) : l = ur.1 ++ ur.2 ∧ ur.1 ≠ [] := by
  unfold matchUnit at h
  obtain ⟨a, ha, hfa⟩ := findSome?_exists _ unitAlts ur h
  have hpat : a.1 ≠ [] := by
    have hall : ∀ x ∈ unitAlts, x.1 ≠ [] := by decide
    exact hall a ha
  by_cases h2 : a.2 = true
  · rw [if_pos h2] at hfa
    obtain ⟨h1, hlen⟩ := matchLitOptS_decomp a.1 l ur hfa
    refine ⟨h1, ?_⟩
    intro hnil
    rw [hnil] at hlen
    simp at hlen
    exact hpat hlen
  · rw [if_neg h2] at hfa
    obtain ⟨h1, hlen⟩ := matchLit_decomp a.1 l ur hfa
    refine ⟨h1, ?_⟩
    intro hnil
    rw [hnil] at hlen
    simp at hlen
    exact hpat (List.eq_nil_of_length_eq_zero hlen.symm)

lemma matchAt_decomp (l : List Char) (vur : List Char × List Char × List Char)
    (h : matchAt l = some vur) : ∃ m, l = m ++ vur.2.2 ∧ m ≠ [] := by
  simp only [matchAt] at h
  by_cases hip : (l.takeWhile isDigit).isEmpty = true
  · rw [if_pos hip] at h
    exact absurd h (by simp)
  · rw [if_neg hip] at h
    have hipne : l.takeWhile isDigit ≠ [] := by
      simpa [List.isEmpty_iff] using hip
    have hsplit : l = l.takeWhile isDigit ++ l.dropWhile isDigit :=
      (List.takeWhile_append_dropWhile ..).symm
    set fr := (if (l.dropWhile isDigit).head? = some '.' then
        (if ((l.dropWhile isDigit).tail.takeWhile isDigit).isEmpty = true then
          ([], l.dropWhile isDigit)
        else ('.' :: (l.dropWhile isDigit).tail.takeWhile isDigit,
          (l.dropWhile isDigit).tail.dropWhile isDigit))
      else ([], l.dropWhile isDigit)) with hfr
    have hr1 : l.dropWhile isDigit = fr.1 ++ fr.2 := by
      rw [hfr]
      split_ifs with hdot hfd
      · simp
      · cases hdw : l.dropWhile isDigit with
        | nil => rw [hdw] at hdot; exact absurd hdot (by simp)
        | cons a t =>
          rw [hdw] at hdot
          simp only [List.head?_cons, Option.some.injEq] at hdot
          subst hdot
          simp only [hdw, List.tail_cons]
          rw [List.cons_append]
          refine congrArg (List.cons '.') ?_
          exact (List.takeWhile_append_dropWhile ..).symm
      · simp
    cases hmu : matchUnit (fr.2.dropWhile isSpaceRE) with
    | none =>
      rw [hmu] at h
      exact absurd h (by simp)
    | some ur =>
      obtain ⟨u, rest⟩ := ur
      rw [hmu] at h
      have h2 : (some (l.takeWhile isDigit ++ fr.1, u, rest) :
          Option (List Char × List Char × List Char)) = some vur := h
      have hv : vur = (l.takeWhile isDigit ++ fr.1, u, rest) := by
        injection h2 with h3
        exact h3.symm
      obtain ⟨hu1, hu2⟩ := matchUnit_decomp _ (u, rest) hmu
      have hfr2 : fr.2 = fr.2.takeWhile isSpaceRE ++ (u ++ rest) := by
        rw [← hu1]
        exact (List.takeWhile_append_dropWhile ..).symm
      refine ⟨l.takeWhile isDigit ++ fr.1 ++ fr.2.takeWhile isSpaceRE ++ u, ?_, ?_⟩
      · subst hv
        calc l = l.takeWhile isDigit ++ l.dropWhile isDigit := hsplit
          _ = l.takeWhile isDigit ++ (fr.1 ++ fr.2) := by rw [← hr1]
          _ = l.takeWhile isDigit ++ (fr.1 ++ (fr.2.takeWhile isSpaceRE ++ (u ++ rest))) := by
            rw [← hfr2]
          _ = l.takeWhile isDigit ++ fr.1 ++ fr.2.takeWhile isSpaceRE ++ u ++ rest := by
            simp [List.append_assoc]
      · intro hnil
        rw [List.append_eq_nil] at hnil
        obtain ⟨hnil2, _⟩ := hnil
        rw [List.append_eq_nil] at hnil2
        obtain ⟨hnil3, _⟩ := hnil2
        rw [List.append_eq_nil] at hnil3
        exact hipne hnil3.1

lemma matchAt_rest_lt (l : List Char) (vur : List Char × List Char × List Char)
    (h : matchAt l = some vur) : vur.2.2.length < l.length := by
  obtain ⟨m, hm, hne⟩ := matchAt_decomp l vur h
  rw [hm, List.length_append]
  cases m with
  | nil => exact absurd rfl hne
  | cons a t => simp

lemma scanAux_nil (fuel : Nat) : scanAux fuel [] = [] := by
  cases fuel <;> rfl

lemma scanAux_mono : ∀ (f1 f2 : Nat) (l : List Char), l.length ≤ f1 → l.length ≤ f2 →
    scanAux f1 l = scanAux f2 l := by
  intro f1
  induction f1 with
  | zero =>
    intro f2 l h1 _
    have hnil : l = [] := List.eq_nil_of_length_eq_zero (by omega)
    subst hnil
    rw [scanAux_nil, scanAux_nil]
  | succ f ih =>
    intro f2 l h1 h2
    cases l with
    | nil => rw [scanAux_nil, scanAux_nil]
    | cons c t =>
      cases f2 with
      | zero => simp at h2
      | succ g =>
        simp only [scanAux]
        cases hma : matchAt (c :: t) with
        | none =>
          exact ih g t (by simpa using h1) (by simpa using h2)
        | some vur =>
          obtain ⟨v, u, rest⟩ := vur
          have hlt := matchAt_rest_lt _ _ hma
          simp only [List.length_cons] at hlt h1 h2
          exact congrArg _ (ih g rest (by omega) (by omega))

lemma matchAt_nondigit {c : Char} (t : List Char) (h : isDigit c = false) :
    matchAt (c :: t) = none := by
  simp only [matchAt]
  rw [takeWhile_cons_neg t h]
  simp

lemma scanAux_skip : ∀ (j : List Char), (∀ c ∈ j, isDigit c = false) →
    ∀ (t : List Char) (f : Nat), (j ++ t).length ≤ f →
    scanAux f (j ++ t) = scanAux t.length t := by
  intro j
  induction j with
  | nil =>
    intro _ t f hf
    simp only [List.nil_append] at hf ⊢
    exact scanAux_mono f t.length t hf le_rfl
  | cons c j ih =>
    intro hj t f hf
    cases f with
    | zero => simp at hf
    | succ f =>
      simp only [List.cons_append, scanAux]
      rw [matchAt_nondigit _ (hj c (by simp))]
      refine ih (fun x hx => hj x (by simp [hx])) t f ?_
      simp at hf ⊢
      omega

/-! ### Unit-letter and term lemmas -/

lemma matchUnit_day (r : List Char) : matchUnit ('d' :: r) = some (['d'], r) := rfl

lemma matchUnit_hour (r : List Char) : matchUnit ('h' :: r) = some (['h'], r) := rfl

lemma matchUnit_minute (r : List Char) : matchUnit ('m' :: r) = some (['m'], r) := rfl

lemma matchUnit_second (r : List Char) : matchUnit ('s' :: r) = some (['s'], r) := rfl

lemma lookupMult_day : lookupMult ['d'] = some 86400 := rfl

lemma lookupMult_hour : lookupMult ['h'] = some 3600 := rfl

lemma lookupMult_minute : lookupMult ['m'] = some 60 := rfl

lemma lookupMult_second : lookupMult ['s'] = some 1 := rfl

/-- The four unit letters that `Duration` output can start a term with for
values below one month, with their multipliers.  (Both the compact suffix and
the first letter of the verbose name of each such unit.) -/
def unitLetter (l : Char) (m : Nat) : Prop :=
  (l = 'd' ∧ m = 86400) ∨ (l = 'h' ∧ m = 3600) ∨ (l = 'm' ∧ m = 60) ∨ (l = 's' ∧ m = 1)

lemma unitLetter_matchUnit {l : Char} {m : Nat} (h : unitLetter l m) (r : List Char) :
    matchUnit (l :: r) = some ([l], r) := by
  rcases h with ⟨rfl, _⟩ | ⟨rfl, _⟩ | ⟨rfl, _⟩ | ⟨rfl, _⟩ <;> rfl

lemma unitLetter_lookup {l : Char} {m : Nat} (h : unitLetter l m) :
    lookupMult [l] = some m := by
  rcases h with ⟨rfl, rfl⟩ | ⟨rfl, rfl⟩ | ⟨rfl, rfl⟩ | ⟨rfl, rfl⟩ <;> rfl

lemma unitLetter_not_digit {l : Char} {m : Nat} (h : unitLetter l m) : isDigit l = false := by
  rcases h with ⟨rfl, _⟩ | ⟨rfl, _⟩ | ⟨rfl, _⟩ | ⟨rfl, _⟩ <;> rfl

lemma unitLetter_not_space {l : Char} {m : Nat} (h : unitLetter l m) : isSpaceRE l = false := by
  rcases h with ⟨rfl, _⟩ | ⟨rfl, _⟩ | ⟨rfl, _⟩ | ⟨rfl, _⟩ <;> rfl

lemma unitLetter_not_dot {l : Char} {m : Nat} (h : unitLetter l m) : l ≠ '.' := by
  rcases h with ⟨rfl, _⟩ | ⟨rfl, _⟩ | ⟨rfl, _⟩ | ⟨rfl, _⟩ <;> decide

lemma matchAt_term (ds : List Char) (hne : ds ≠ []) (hd : ∀ c ∈ ds, isDigit c = true)
    (sp : List Char) (hsp : sp = [] ∨ sp = [' '])
    (l : Char) (hl : isDigit l = false) (hlsp : isSpaceRE l = false) (hldot : l ≠ '.')
    (rest : List Char) :
    matchAt (ds ++ (sp ++ l :: rest)) =
      (matchUnit (l :: rest)).map fun ur => (ds, ur.1, ur.2) := by
  have htw : (ds ++ (sp ++ l :: rest)).takeWhile isDigit = ds := by
    rw [takeWhile_append_all _ hd]
    rcases hsp with rfl | rfl
    · rw [List.nil_append, takeWhile_cons_neg _ hl, List.append_nil]
    · rw [List.singleton_append, takeWhile_cons_neg _ (by rfl), List.append_nil]
  have hdw : (ds ++ (sp ++ l :: rest)).dropWhile isDigit = sp ++ l :: rest := by
    rw [dropWhile_append_all _ hd]
    rcases hsp with rfl | rfl
    · rw [List.nil_append, dropWhile_cons_neg _ hl]
    · rw [List.singleton_append, dropWhile_cons_neg _ (by rfl)]
  have hhead : ¬((sp ++ l :: rest).head? = some '.') := by
    rcases hsp with rfl | rfl
    · rw [List.nil_append, List.head?_cons]
      intro hcon
      injection hcon with h'
      exact hldot h'
    · rw [List.singleton_append, List.head?_cons]
      intro hcon
      injection hcon with h'
      exact absurd h' (by decide)
  have hr3 : (sp ++ l :: rest).dropWhile isSpaceRE = l :: rest := by
    rcases hsp with rfl | rfl
    · rw [List.nil_append]
      exact dropWhile_cons_neg rest hlsp
    · rw [List.singleton_append, List.dropWhile_cons, if_pos (by rfl)]
      exact dropWhile_cons_neg rest hlsp
  simp only [matchAt]
  rw [htw, hdw]
  rw [if_neg (by simp [List.isEmpty_iff, hne])]
  rw [if_neg hhead]
  have heq : (([], sp ++ l :: rest) : List Char × List Char).2.dropWhile isSpaceRE =
      l :: rest := hr3
  cases hmu : matchUnit ((([], sp ++ l :: rest) :
      List Char × List Char).2.dropWhile isSpaceRE) with
  | none =>
    rw [heq] at hmu
    rw [hmu]
    rfl
  | some ur =>
    obtain ⟨u, r⟩ := ur
    rw [heq] at hmu
    rw [hmu]
    simp

lemma scanAux_term (ds : List Char) (hne : ds ≠ []) (hd : ∀ c ∈ ds, isDigit c = true)
    (sp : List Char) (hsp : sp = [] ∨ sp = [' '])
    (l : Char) (m : Nat) (hul : unitLetter l m)
    (j t : List Char) (hj : ∀ c ∈ j, isDigit c = false)
    (f : Nat) (hf : (ds ++ (sp ++ l :: (j ++ t))).length ≤ f) :
    scanAux f (ds ++ (sp ++ l :: (j ++ t))) = (ds, [l]) :: scanAux t.length t := by
  have hma : matchAt (ds ++ (sp ++ l :: (j ++ t))) = some (ds, [l], j ++ t) := by
    rw [matchAt_term ds hne hd sp hsp l (unitLetter_not_digit hul)
      (unitLetter_not_space hul) (unitLetter_not_dot hul) (j ++ t),
      unitLetter_matchUnit hul]
    rfl
  obtain ⟨c, cs, rfl⟩ := List.exists_cons_of_ne_nil hne
  rw [List.cons_append] at hma hf ⊢
  cases f with
  | zero => simp at hf
  | succ f =>
    simp only [scanAux]
    rw [hma]
    refine congrArg (List.cons (c :: cs, [l])) ?_
    refine scanAux_skip j hj t f ?_
    simp only [List.length_cons, List.length_append] at hf ⊢
    omega

/-! ### Round-trip parse lemmas -/

lemma digits_contains_dot {ds : List Char} (hd : ∀ c ∈ ds, isDigit c = true) :
    ds.contains '.' = false := by
  have : '.' ∉ ds := fun hmem => absurd (hd '.' hmem) (by decide)
  simpa using this

lemma getLast?_cons_ne {α : Type} (a : α) (l : List α) (h : l ≠ []) :
    (a :: l).getLast? = l.getLast? := by
  have h2 : a :: l = [a] ++ l := rfl
  rw [h2, List.getLast?_append_of_ne_nil _ h]

lemma colonFields_none_head (l : List Char)
    (h : ∀ c, (l.dropWhile isDigit).head? = some c → c ≠ ':') :
    colonFields l = none := by
  unfold colonFields
  by_cases hip : (l.takeWhile isDigit).isEmpty = true
  · rw [if_pos hip]
  · rw [if_neg hip]
    cases hdw : l.dropWhile isDigit with
    | nil => rfl
    | cons a t =>
      have ha : a ≠ ':' := h a (by rw [hdw]; rfl)
      split
      · rename_i m1 m2 rest heq
        injection heq with h1 _
        exact absurd h1 ha
      · rfl

lemma scanMatches_two (c1 c2 : Nat)
    (sp1 sp2 : List Char) (hsp1 : sp1 = [] ∨ sp1 = [' ']) (hsp2 : sp2 = [] ∨ sp2 = [' '])
    (l1 l2 : Char) (m1 m2 : Nat) (hu1 : unitLetter l1 m1) (hu2 : unitLetter l2 m2)
    (j1 j2 : List Char) (hj1 : ∀ c ∈ j1, isDigit c = false)
    (hj2 : ∀ c ∈ j2, isDigit c = false) :
    scanMatches (itoaL c1 ++ (sp1 ++ l1 :: (j1 ++ (itoaL c2 ++ (sp2 ++ l2 :: j2))))) =
      [(itoaL c1, [l1]), (itoaL c2, [l2])] := by
  unfold scanMatches
  rw [scanAux_term (itoaL c1) (itoaL_ne_nil c1) itoaL_digits sp1 hsp1 l1 m1 hu1 j1
    (itoaL c2 ++ (sp2 ++ l2 :: j2)) hj1 _ le_rfl]
  have hsh : l2 :: j2 = l2 :: (j2 ++ []) := by simp
  rw [hsh, scanAux_term (itoaL c2) (itoaL_ne_nil c2) itoaL_digits sp2 hsp2 l2 m2 hu2 j2
    [] hj2 _ le_rfl]
  rfl

lemma scanMatches_one (c1 : Nat) (sp1 : List Char) (hsp1 : sp1 = [] ∨ sp1 = [' '])
    (l1 : Char) (m1 : Nat) (hu1 : unitLetter l1 m1)
    (j1 : List Char) (hj1 : ∀ c ∈ j1, isDigit c = false) :
    scanMatches (itoaL c1 ++ (sp1 ++ l1 :: j1)) = [(itoaL c1, [l1])] := by
  unfold scanMatches
  have hsh : l1 :: j1 = l1 :: (j1 ++ []) := by simp
  rw [hsh, scanAux_term (itoaL c1) (itoaL_ne_nil c1) itoaL_digits sp1 hsp1 l1 m1 hu1 j1
    [] hj1 _ le_rfl]
  rfl

lemma termAdd_itoaL (a : Int) (c m : Nat) (l : Char) (hu : unitLetter l m)
    (hc : c ≤ 2 ^ 63 - 1) :
    termAdd a (itoaL c, [l]) = wrap64 (a + wrap64 ((c : Int) * m)) := by
  unfold termAdd
  rw [unitLetter_lookup hu]
  simp only [digits_contains_dot itoaL_digits, Bool.false_eq_true, if_false]
  rw [digitsToNat_itoaL]
  have hcl : clampI64 c = c := by
    unfold clampI64
    omega
  rw [hcl]

lemma wrap64_of_nat_small {a b : Nat} (h : a * b < 2 ^ 63) :
    wrap64 ((a : Int) * b) = (a : Int) * b := by
  have h0 : (0 : Int) ≤ (a : Int) * b := by positivity
  have h1 : ((a : Int) * b) < 2 ^ 63 := by exact_mod_cast h
  exact wrap64_small (by omega) h1

lemma wrap64_sum_small {a b c d : Nat} (h : a * b + c * d < 2 ^ 63) :
    wrap64 ((a : Int) * b + (c : Int) * d) = (a : Int) * b + (c : Int) * d := by
  have h0 : (0 : Int) ≤ (a : Int) * b + (c : Int) * d := by positivity
  have h1 : (a : Int) * b + (c : Int) * d < 2 ^ 63 := by exact_mod_cast h
  exact wrap64_small (by omega) h1

lemma parseUVP_two (c1 c2 : Nat)
    (sp1 sp2 : List Char) (hsp1 : sp1 = [] ∨ sp1 = [' ']) (hsp2 : sp2 = [] ∨ sp2 = [' '])
    (l1 l2 : Char) (m1 m2 : Nat) (hu1 : unitLetter l1 m1) (hu2 : unitLetter l2 m2)
    (j1 j2 : List Char) (hj1 : ∀ c ∈ j1, isDigit c = false)
    (hj2 : ∀ c ∈ j2, isDigit c = false)
    (hm1 : 1 ≤ m1) (hm2 : 1 ≤ m2)
    (hb : c1 * m1 + c2 * m2 < 2 ^ 63) :
    parseUnitValuePairs (itoaL c1 ++ (sp1 ++ l1 :: (j1 ++ (itoaL c2 ++ (sp2 ++ l2 :: j2))))) =
      some ((c1 * m1 + c2 * m2 : Nat) : Int) := by
  have hc1 : c1 * m1 < 2 ^ 63 := by omega
  have hc2 : c2 * m2 < 2 ^ 63 := by omega
  have hcc1 : c1 ≤ 2 ^ 63 - 1 := by
    have := Nat.le_mul_of_pos_right c1 (show 0 < m1 by omega)
    omega
  have hcc2 : c2 ≤ 2 ^ 63 - 1 := by
    have := Nat.le_mul_of_pos_right c2 (show 0 < m2 by omega)
    omega
  unfold parseUnitValuePairs
  rw [scanMatches_two c1 c2 sp1 sp2 hsp1 hsp2 l1 l2 m1 m2 hu1 hu2 j1 j2 hj1 hj2]
  rw [if_neg (by simp)]
  simp only [List.foldl]
  rw [termAdd_itoaL 0 c1 m1 l1 hu1 hcc1, termAdd_itoaL _ c2 m2 l2 hu2 hcc2]
  rw [zero_add, wrap64_of_nat_small hc1, wrap64_of_nat_small hc1,
    wrap64_of_nat_small hc2, wrap64_sum_small hb]
  refine congrArg some ?_
  push_cast
  ring

lemma parseUVP_one (c1 : Nat) (sp1 : List Char) (hsp1 : sp1 = [] ∨ sp1 = [' '])
    (l1 : Char) (m1 : Nat) (hu1 : unitLetter l1 m1)
    (j1 : List Char) (hj1 : ∀ c ∈ j1, isDigit c = false)
    (hc1 : c1 * m1 < 2 ^ 63) (hm1 : 1 ≤ m1) :
    parseUnitValuePairs (itoaL c1 ++ (sp1 ++ l1 :: j1)) = some ((c1 * m1 : Nat) : Int) := by
  have hcc1 : c1 ≤ 2 ^ 63 - 1 := by
    have := Nat.le_mul_of_pos_right c1 (show 0 < m1 by omega)
    omega
  unfold parseUnitValuePairs
  rw [scanMatches_one c1 sp1 hsp1 l1 m1 hu1 j1 hj1]
  rw [if_neg (by simp)]
  simp only [List.foldl]
  rw [termAdd_itoaL 0 c1 m1 l1 hu1 hcc1]
  rw [zero_add, wrap64_of_nat_small hc1, wrap64_of_nat_small hc1]
  refine congrArg some ?_
  push_cast
  ring

lemma unitLetter_ne_colon {l : Char} {m : Nat} (h : unitLetter l m) : l ≠ ':' := by
  rcases h with ⟨rfl, _⟩ | ⟨rfl, _⟩ | ⟨rfl, _⟩ | ⟨rfl, _⟩ <;> decide

lemma unitLetter_mult_pos {l : Char} {m : Nat} (h : unitLetter l m) : 1 ≤ m := by
  rcases h with ⟨_, rfl⟩ | ⟨_, rfl⟩ | ⟨_, rfl⟩ | ⟨_, rfl⟩ <;> omega

lemma parseDL_two (c1 c2 : Nat)
    (sp1 sp2 : List Char) (hsp1 : sp1 = [] ∨ sp1 = [' ']) (hsp2 : sp2 = [] ∨ sp2 = [' '])
    (l1 l2 : Char) (m1 m2 : Nat) (hu1 : unitLetter l1 m1) (hu2 : unitLetter l2 m2)
    (j1 j2 : List Char) (hj1 : ∀ c ∈ j1, isDigit c = false)
    (hj2 : ∀ c ∈ j2, isDigit c = false)
    (hlast : ∀ x ∈ (l2 :: j2).getLast?, isSpaceGo x = false)
    (hm1 : 1 ≤ m1) (hm2 : 1 ≤ m2)
    (hb : c1 * m1 + c2 * m2 < 2 ^ 63) :
    ParseDurationL (itoaL c1 ++ (sp1 ++ l1 :: (j1 ++ (itoaL c2 ++ (sp2 ++ l2 :: j2))))) =
      .ok ((c1 * m1 + c2 * m2 : Nat) : Int) := by
  obtain ⟨d, ds, hds⟩ := List.exists_cons_of_ne_nil (itoaL_ne_nil c1)
  have hddig : isDigit d = true := by
    apply itoaL_digits (n := c1)
    rw [hds]
    simp
  have htrim : trimSpace (itoaL c1 ++ (sp1 ++ l1 :: (j1 ++ (itoaL c2 ++ (sp2 ++ l2 :: j2))))) =
      itoaL c1 ++ (sp1 ++ l1 :: (j1 ++ (itoaL c2 ++ (sp2 ++ l2 :: j2)))) := by
    refine trimSpace_eq_self ?_ ?_
    · intro c hc
      rw [hds, List.cons_append, List.head?_cons] at hc
      simp only [Option.mem_def, Option.some.injEq] at hc
      subst hc
      exact isSpaceGo_of_digit hddig
    · intro c hc
      rw [List.getLast?_append_of_ne_nil _ (by simp)] at hc
      rw [List.getLast?_append_of_ne_nil _ (by simp)] at hc
      rw [getLast?_cons_ne _ _ (by simp [List.append_eq_nil, itoaL_ne_nil c2])] at hc
      rw [List.getLast?_append_of_ne_nil _ (by simp [List.append_eq_nil, itoaL_ne_nil c2])]
        at hc
      rw [List.getLast?_append_of_ne_nil _ (by simp)] at hc
      rw [List.getLast?_append_of_ne_nil _ (by simp)] at hc
      exact hlast c hc
  have hhd : ¬((itoaL c1 ++ (sp1 ++ l1 :: (j1 ++ (itoaL c2 ++
      (sp2 ++ l2 :: j2))))).head? = some '-') := by
    rw [hds, List.cons_append, List.head?_cons]
    intro hcon
    injection hcon with h2
    exact digit_ne_dash hddig h2
  have hcf : colonFields (itoaL c1 ++ (sp1 ++ l1 :: (j1 ++ (itoaL c2 ++
      (sp2 ++ l2 :: j2))))) = none := by
    refine colonFields_none_head _ ?_
    intro c hc
    rw [dropWhile_append_all _ itoaL_digits] at hc
    rcases hsp1 with rfl | rfl
    · rw [List.nil_append, dropWhile_cons_neg _ (unitLetter_not_digit hu1),
        List.head?_cons] at hc
      injection hc with h2
      rw [← h2]
      exact unitLetter_ne_colon hu1
    · rw [List.singleton_append, dropWhile_cons_neg _ (by rfl), List.head?_cons] at hc
      injection hc with h2
      rw [← h2]
      decide
  have hpc : parseColon (itoaL c1 ++ (sp1 ++ l1 :: (j1 ++ (itoaL c2 ++
      (sp2 ++ l2 :: j2))))) = none := by
    unfold parseColon
    rw [hcf]
    rfl
  show ParseDurationL _ = _
  simp only [ParseDurationL]
  rw [htrim]
  rw [if_neg (by
    rw [hds]
    simp [List.isEmpty_iff])]
  rw [if_neg hhd, hpc,
    parseUVP_two c1 c2 sp1 sp2 hsp1 hsp2 l1 l2 m1 m2 hu1 hu2 j1 j2 hj1 hj2 hm1 hm2 hb]

lemma parseDL_one (c1 : Nat) (sp1 : List Char) (hsp1 : sp1 = [] ∨ sp1 = [' '])
    (l1 : Char) (m1 : Nat) (hu1 : unitLetter l1 m1)
    (j1 : List Char) (hj1 : ∀ c ∈ j1, isDigit c = false)
    (hlast : ∀ x ∈ (l1 :: j1).getLast?, isSpaceGo x = false)
    (hc1 : c1 * m1 < 2 ^ 63) (hm1 : 1 ≤ m1) :
    ParseDurationL (itoaL c1 ++ (sp1 ++ l1 :: j1)) = .ok ((c1 * m1 : Nat) : Int) := by
  obtain ⟨d, ds, hds⟩ := List.exists_cons_of_ne_nil (itoaL_ne_nil c1)
  have hddig : isDigit d = true := by
    apply itoaL_digits (n := c1)
    rw [hds]
    simp
  have htrim : trimSpace (itoaL c1 ++ (sp1 ++ l1 :: j1)) =
      itoaL c1 ++ (sp1 ++ l1 :: j1) := by
    refine trimSpace_eq_self ?_ ?_
    · intro c hc
      rw [hds, List.cons_append, List.head?_cons] at hc
      simp only [Option.mem_def, Option.some.injEq] at hc
      subst hc
      exact isSpaceGo_of_digit hddig
    · intro c hc
      rw [List.getLast?_append_of_ne_nil _ (by simp)] at hc
      rw [List.getLast?_append_of_ne_nil _ (by simp)] at hc
      exact hlast c hc
  have hhd : ¬((itoaL c1 ++ (sp1 ++ l1 :: j1)).head? = some '-') := by
    rw [hds, List.cons_append, List.head?_cons]
    intro hcon
    injection hcon with h2
    exact digit_ne_dash hddig h2
  have hcf : colonFields (itoaL c1 ++ (sp1 ++ l1 :: j1)) = none := by
    refine colonFields_none_head _ ?_
    intro c hc
    rw [dropWhile_append_all _ itoaL_digits] at hc
    rcases hsp1 with rfl | rfl
    · rw [List.nil_append, dropWhile_cons_neg _ (unitLetter_not_digit hu1),
        List.head?_cons] at hc
      injection hc with h2
      rw [← h2]
      exact unitLetter_ne_colon hu1
    · rw [List.singleton_append, dropWhile_cons_neg _ (by rfl), List.head?_cons] at hc
      injection hc with h2
      rw [← h2]
      decide
  have hpc : parseColon (itoaL c1 ++ (sp1 ++ l1 :: j1)) = none := by
    unfold parseColon
    rw [hcf]
    rfl
  show ParseDurationL _ = _
  simp only [ParseDurationL]
  rw [htrim]
  rw [if_neg (by
    rw [hds]
    simp [List.isEmpty_iff])]
  rw [if_neg hhd, hpc, parseUVP_one c1 sp1 hsp1 l1 m1 hu1 j1 hj1 hc1 hm1]

/-! ### Decompose shape for small values -/

lemma decompose_cons (r : Nat) (u : TUnit) (rest : List TUnit) :
    decompose r (u :: rest) =
      (if u.seconds ≤ r then [(r / u.seconds, u)] else []) ++ decompose (r % u.seconds) rest := by
  by_cases h : u.seconds ≤ r
  · simp only [decompose, if_pos h]
    simp [h]
  · have hr : r % u.seconds = r := Nat.mod_eq_of_lt (by omega)
    simp only [decompose, if_neg h]
    rw [hr]
    simp [h]

lemma decompose_small (s : Nat) (hs : s < 2592000) :
    decompose s unitTable =
      (if 86400 ≤ s then [(s / 86400, (⟨86400, "d", "day"⟩ : TUnit))] else []) ++
      ((if 3600 ≤ s % 86400 then
        [(s % 86400 / 3600, (⟨3600, "h", "hour"⟩ : TUnit))] else []) ++
      ((if 60 ≤ s % 86400 % 3600 then
        [(s % 86400 % 3600 / 60, (⟨60, "m", "minute"⟩ : TUnit))] else []) ++
      (if 1 ≤ s % 86400 % 3600 % 60 then
        [(s % 86400 % 3600 % 60, (⟨1, "s", "second"⟩ : TUnit))] else []))) := by
  have e1 : unitTable = ⟨365 * 86400, "y", "year"⟩ :: ⟨30 * 86400, "mo", "month"⟩ ::
      ⟨86400, "d", "day"⟩ :: ⟨3600, "h", "hour"⟩ :: ⟨60, "m", "minute"⟩ ::
      ⟨1, "s", "second"⟩ :: [] := rfl
  rw [e1]
  rw [decompose_cons]
  rw [if_neg (by show ¬(365 * 86400 ≤ s); omega)]
  have m1 : s % (⟨365 * 86400, "y", "year"⟩ : TUnit).seconds = s := by
    show s % (365 * 86400) = s
    exact Nat.mod_eq_of_lt (by omega)
  rw [m1, decompose_cons]
  rw [if_neg (by show ¬(30 * 86400 ≤ s); omega)]
  have m2 : s % (⟨30 * 86400, "mo", "month"⟩ : TUnit).seconds = s := by
    show s % (30 * 86400) = s
    exact Nat.mod_eq_of_lt (by omega)
  rw [m2, decompose_cons, decompose_cons, decompose_cons, decompose_cons]
  dsimp only
  simp [decompose, Nat.div_one]

/-! ### Rendered-output parse lemmas -/

lemma data_append (a b : String) : (a ++ b).data = a.data ++ b.data := rfl

lemma data_itoa (n : Nat) : (itoa n).data = itoaL n := rfl

/-- The pluralisation suffix of a verbose term, at the character-list level. -/
def pluralL (c : Nat) : List Char := if c ≠ 1 then ['s'] else []

lemma data_plural (c : Nat) : (if c ≠ 1 then "s" else "").data = pluralL c := by
  unfold pluralL
  by_cases h : c = 1 <;> simp [h]

lemma nondigit_append {a b : List Char} (ha : ∀ c ∈ a, isDigit c = false)
    (hb : ∀ c ∈ b, isDigit c = false) : ∀ c ∈ a ++ b, isDigit c = false := by
  intro c hc
  rcases List.mem_append.1 hc with h | h
  · exact ha c h
  · exact hb c h

lemma nondigit_plural (c : Nat) : ∀ x ∈ pluralL c, isDigit x = false := by
  intro x hx
  unfold pluralL at hx
  by_cases h : c ≠ 1
  · rw [if_pos h] at hx
    simp at hx
    subst hx
    rfl
  · rw [if_neg h] at hx
    simp at hx

lemma getLast?_tail_plural (l : Char) (tail : List Char) (c : Nat)
    (hne : ∀ x ∈ (l :: tail).getLast?, isSpaceGo x = false) :
    ∀ x ∈ (l :: (tail ++ pluralL c)).getLast?, isSpaceGo x = false := by
  intro x hx
  unfold pluralL at hx
  by_cases h : c ≠ 1
  · rw [if_pos h] at hx
    have hg : (l :: (tail ++ ['s'])).getLast? = some 's' := by
      rw [getLast?_cons_ne _ _ (by simp), List.getLast?_append_of_ne_nil _ (by simp)]
      rfl
    rw [hg] at hx
    simp at hx
    subst hx
    rfl
  · rw [if_neg h] at hx
    simp only [List.append_nil] at hx
    exact hne x hx

/-- The four units that can appear in `Duration` output for values below one
month. -/
def smallUnit (u : TUnit) : Prop :=
  u = ⟨86400, "d", "day"⟩ ∨ u = ⟨3600, "h", "hour"⟩ ∨ u = ⟨60, "m", "minute"⟩ ∨
    u = ⟨1, "s", "second"⟩

lemma smallUnit_facts (u : TUnit) (h : smallUnit u) :
    ∃ l tail, u.compactS.data = [l] ∧ u.verboseS.data = l :: tail ∧
      unitLetter l u.seconds ∧ (∀ c ∈ tail, isDigit c = false) ∧
      (∀ x ∈ (l :: tail).getLast?, isSpaceGo x = false) ∧
      isSpaceGo l = false ∧ 1 ≤ u.seconds := by
  rcases h with rfl | rfl | rfl | rfl
  · exact ⟨'d', ['a', 'y'], rfl, rfl, Or.inl ⟨rfl, rfl⟩, by decide, by decide, rfl, by decide⟩
  · exact ⟨'h', ['o', 'u', 'r'], rfl, rfl, Or.inr (Or.inl ⟨rfl, rfl⟩), by decide, by decide,
      rfl, by decide⟩
  · exact ⟨'m', ['i', 'n', 'u', 't', 'e'], rfl, rfl, Or.inr (Or.inr (Or.inl ⟨rfl, rfl⟩)),
      by decide, by decide, rfl, by decide⟩
  · exact ⟨'s', ['e', 'c', 'o', 'n', 'd'], rfl, rfl, Or.inr (Or.inr (Or.inr ⟨rfl, rfl⟩)),
      by decide, by decide, rfl, by decide⟩

lemma rendered_two_parse (c1 c2 : Nat) (u1 u2 : TUnit) (cpt : Bool)
    (h1 : smallUnit u1) (h2 : smallUnit u2)
    (hb : c1 * u1.seconds + c2 * u2.seconds < 2 ^ 63) :
    ParseDuration (joinSep (if cpt then " " else ", ")
      ([(c1, u1), (c2, u2)].map (renderPart cpt))) =
      .ok ((c1 * u1.seconds + c2 * u2.seconds : Nat) : Int) := by
  obtain ⟨l1, t1, hcd1, hvd1, hul1, ht1d, ht1l, hl1s, hm1⟩ := smallUnit_facts u1 h1
  obtain ⟨l2, t2, hcd2, hvd2, hul2, ht2d, ht2l, hl2s, hm2⟩ := smallUnit_facts u2 h2
  cases cpt
  · have hdata : (joinSep ", " ([(c1, u1), (c2, u2)].map (renderPart false))).data =
        itoaL c1 ++ ([' '] ++ l1 :: (((t1 ++ pluralL c1) ++ [',', ' ']) ++
          (itoaL c2 ++ ([' '] ++ l2 :: (t2 ++ pluralL c2))))) := by
      simp only [List.map, joinSep, renderPart, Bool.false_eq_true, if_false,
        data_append, data_itoa, hvd1, hvd2, data_plural]
      simp [List.append_assoc]
    show ParseDurationL (joinSep ", " (List.map (renderPart false) [(c1, u1), (c2, u2)])).data
      = _
    rw [hdata]
    exact parseDL_two c1 c2 [' '] [' '] (Or.inr rfl) (Or.inr rfl) l1 l2 _ _ hul1 hul2
      _ _ (nondigit_append (nondigit_append ht1d (nondigit_plural c1)) (by decide))
      (nondigit_append ht2d (nondigit_plural c2))
      (getLast?_tail_plural l2 t2 c2 ht2l)
      (unitLetter_mult_pos hul1) (unitLetter_mult_pos hul2) hb
  · have hdata : (joinSep " " ([(c1, u1), (c2, u2)].map (renderPart true))).data =
        itoaL c1 ++ ([] ++ l1 :: ([' '] ++ (itoaL c2 ++ ([] ++ l2 :: [])))) := by
      simp only [List.map, joinSep, renderPart, if_true, data_append, data_itoa, hcd1, hcd2]
      simp [List.append_assoc]
    show ParseDurationL (joinSep " " (List.map (renderPart true) [(c1, u1), (c2, u2)])).data
      = _
    rw [hdata]
    exact parseDL_two c1 c2 [] [] (Or.inl rfl) (Or.inl rfl) l1 l2 _ _ hul1 hul2
      [' '] [] (by decide) (by decide)
      (by intro x hx; simp at hx; subst hx; exact hl2s)
      (unitLetter_mult_pos hul1) (unitLetter_mult_pos hul2) hb

lemma rendered_one_parse (c1 : Nat) (u1 : TUnit) (cpt : Bool)
    (h1 : smallUnit u1) (hc1 : c1 * u1.seconds < 2 ^ 63) :
    ParseDuration (joinSep (if cpt then " " else ", ") ([(c1, u1)].map (renderPart cpt))) =
      .ok ((c1 * u1.seconds : Nat) : Int) := by
  obtain ⟨l1, t1, hcd1, hvd1, hul1, ht1d, ht1l, hl1s, hm1⟩ := smallUnit_facts u1 h1
  cases cpt
  · have hdata : (joinSep ", " ([(c1, u1)].map (renderPart false))).data =
        itoaL c1 ++ ([' '] ++ l1 :: (t1 ++ pluralL c1)) := by
      simp only [List.map, joinSep, renderPart, Bool.false_eq_true, if_false,
        data_append, data_itoa, hvd1, data_plural]
      simp [List.append_assoc]
    show ParseDurationL (joinSep ", " (List.map (renderPart false) [(c1, u1)])).data = _
    rw [hdata]
    exact parseDL_one c1 [' '] (Or.inr rfl) l1 _ hul1 _
      (nondigit_append ht1d (nondigit_plural c1))
      (getLast?_tail_plural l1 t1 c1 ht1l) hc1 (unitLetter_mult_pos hul1)
  · have hdata : (joinSep " " ([(c1, u1)].map (renderPart true))).data =
        itoaL c1 ++ ([] ++ l1 :: []) := by
      simp only [List.map, joinSep, renderPart, if_true, data_append, data_itoa, hcd1]
      simp
    show ParseDurationL (joinSep " " (List.map (renderPart true) [(c1, u1)])).data = _
    rw [hdata]
    exact parseDL_one c1 [] (Or.inl rfl) l1 _ hul1 []
      (by decide) (by intro x hx; simp at hx; subst hx; exact hl1s)
      hc1 (unitLetter_mult_pos hul1)

/-- The seconds value of the last (smallest) kept unit: the granularity
within which a truncated rendering can deviate from the original value. -/
def granularity (l : List (Nat × TUnit)) : Nat :=
  match l.getLast? with
  | some p => p.2.seconds
  | none => 1

/-- Claim C1, amended.  The original claim quantifies over all non-negative
seconds; it is refuted by the counterexample theorem for this claim, since at
one month and beyond the formatter emits the verbose words "month"/"year"
(or the suffixes "mo"/"y"), which the parser's leftmost-first alternation
reads as minutes or rejects outright.  Amended to the faithful range: for
every non-negative `s` below one month (2592000 seconds) and either
verbosity, `Duration` with the default limit of two units succeeds, feeding
its output back through `ParseDuration` succeeds and returns `r ≤ s` lying
within one granularity of the smallest kept unit (`s - r` is less than the
seconds of the last kept part), with exact equality `r = s` whenever the
largest emitted unit divides `s`. -/
theorem duration_roundtrip (s : Nat) (hs : s < 2592000) (cpt : Bool) :
    ∃ (out : String) (r : Nat),
      Duration (s : Int) ⟨cpt, 2⟩ = .ok out ∧
      ParseDuration out = .ok (r : Int) ∧
      r ≤ s ∧
      s - r < granularity ((decompose s unitTable).take 2) ∧
      (∀ p ∈ (decompose s unitTable).head?, p.2.seconds ∣ s → r = s) := by
  have hdec := decompose_small s hs
  by_cases hA : 86400 ≤ s
  · by_cases hB : 3600 ≤ s % 86400
    · rw [if_pos hA, if_pos hB] at hdec
      have hfmt := duration_shape s ⟨cpt, 2⟩
      rw [hdec] at hfmt
      refine ⟨_, s / 86400 * 86400 + s % 86400 / 3600 * 3600, hfmt, ?_, ?_, ?_, ?_⟩
      · exact rendered_two_parse (s / 86400) (s % 86400 / 3600) ⟨86400, "d", "day"⟩
          ⟨3600, "h", "hour"⟩ cpt (Or.inl rfl) (Or.inr (Or.inl rfl))
          (show s / 86400 * 86400 + s % 86400 / 3600 * 3600 < 2 ^ 63 by omega)
      · omega
      · rw [hdec]
        show s - (s / 86400 * 86400 + s % 86400 / 3600 * 3600) < 3600
        omega
      · rw [hdec]
        intro p hp hdvd
        simp only [List.cons_append, List.nil_append, List.head?_cons,
          Option.mem_def, Option.some.injEq] at hp
        subst hp
        have hdvd2 : (86400 : Nat) ∣ s := hdvd
        omega
    · by_cases hC : 60 ≤ s % 86400 % 3600
      · rw [if_pos hA, if_neg hB, if_pos hC] at hdec
        have hfmt := duration_shape s ⟨cpt, 2⟩
        rw [hdec] at hfmt
        refine ⟨_, s / 86400 * 86400 + s % 86400 % 3600 / 60 * 60, hfmt, ?_, ?_, ?_, ?_⟩
        · exact rendered_two_parse (s / 86400) (s % 86400 % 3600 / 60) ⟨86400, "d", "day"⟩
            ⟨60, "m", "minute"⟩ cpt (Or.inl rfl) (Or.inr (Or.inr (Or.inl rfl)))
            (show s / 86400 * 86400 + s % 86400 % 3600 / 60 * 60 < 2 ^ 63 by omega)
        · omega
        · rw [hdec]
          show s - (s / 86400 * 86400 + s % 86400 % 3600 / 60 * 60) < 60
          omega
        · rw [hdec]
          intro p hp hdvd
          simp only [List.cons_append, List.nil_append, List.head?_cons,
            Option.mem_def, Option.some.injEq] at hp
          subst hp
          have hdvd2 : (86400 : Nat) ∣ s := hdvd
          omega
      · by_cases hD : 1 ≤ s % 86400 % 3600 % 60
        · rw [if_pos hA, if_neg hB, if_neg hC, if_pos hD] at hdec
          have hfmt := duration_shape s ⟨cpt, 2⟩
          rw [hdec] at hfmt
          refine ⟨_, s / 86400 * 86400 + s % 86400 % 3600 % 60 * 1, hfmt, ?_, ?_, ?_, ?_⟩
          · exact rendered_two_parse (s / 86400) (s % 86400 % 3600 % 60) ⟨86400, "d", "day"⟩
              ⟨1, "s", "second"⟩ cpt (Or.inl rfl) (Or.inr (Or.inr (Or.inr rfl)))
              (show s / 86400 * 86400 + s % 86400 % 3600 % 60 * 1 < 2 ^ 63 by omega)
          · omega
          · rw [hdec]
            show s - (s / 86400 * 86400 + s % 86400 % 3600 % 60 * 1) < 1
            omega
          · rw [hdec]
            intro p hp hdvd
            simp only [List.cons_append, List.nil_append, List.head?_cons,
              Option.mem_def, Option.some.injEq] at hp
            subst hp
            have hdvd2 : (86400 : Nat) ∣ s := hdvd
            omega
        · rw [if_pos hA, if_neg hB, if_neg hC, if_neg hD] at hdec
          have hfmt := duration_shape s ⟨cpt, 2⟩
          rw [hdec] at hfmt
          refine ⟨_, s / 86400 * 86400, hfmt, ?_, ?_, ?_, ?_⟩
          · exact rendered_one_parse (s / 86400) ⟨86400, "d", "day"⟩ cpt
              (Or.inl rfl) (show s / 86400 * 86400 < 2 ^ 63 by omega)
          · omega
          · rw [hdec]
            show s - (s / 86400 * 86400) < 86400
            omega
          · rw [hdec]
            intro p hp hdvd
            simp only [List.cons_append, List.nil_append, List.head?_cons,
              Option.mem_def, Option.some.injEq] at hp
            subst hp
            have hdvd2 : (86400 : Nat) ∣ s := hdvd
            omega
  · by_cases hB : 3600 ≤ s % 86400
    · by_cases hC : 60 ≤ s % 86400 % 3600
      · rw [if_neg hA, if_pos hB, if_pos hC] at hdec
        have hfmt := duration_shape s ⟨cpt, 2⟩
        rw [hdec] at hfmt
        refine ⟨_, s % 86400 / 3600 * 3600 + s % 86400 % 3600 / 60 * 60, hfmt, ?_, ?_, ?_, ?_⟩
        · exact rendered_two_parse (s % 86400 / 3600) (s % 86400 % 3600 / 60) ⟨3600, "h", "hour"⟩
            ⟨60, "m", "minute"⟩ cpt (Or.inr (Or.inl rfl)) (Or.inr (Or.inr (Or.inl rfl)))
            (show s % 86400 / 3600 * 3600 + s % 86400 % 3600 / 60 * 60 < 2 ^ 63 by omega)
        · omega
        · rw [hdec]
          show s - (s % 86400 / 3600 * 3600 + s % 86400 % 3600 / 60 * 60) < 60
          omega
        · rw [hdec]
          intro p hp hdvd
          simp only [List.cons_append, List.nil_append, List.head?_cons,
            Option.mem_def, Option.some.injEq] at hp
          subst hp
          have hdvd2 : (3600 : Nat) ∣ s := hdvd
          omega
      · by_cases hD : 1 ≤ s % 86400 % 3600 % 60
        · rw [if_neg hA, if_pos hB, if_neg hC, if_pos hD] at hdec
          have hfmt := duration_shape s ⟨cpt, 2⟩
          rw [hdec] at hfmt
          refine ⟨_, s % 86400 / 3600 * 3600 + s % 86400 % 3600 % 60 * 1, hfmt, ?_, ?_, ?_, ?_⟩
          · exact rendered_two_parse (s % 86400 / 3600) (s % 86400 % 3600 % 60) ⟨3600, "h", "hour"⟩
              ⟨1, "s", "second"⟩ cpt (Or.inr (Or.inl rfl)) (Or.inr (Or.inr (Or.inr rfl)))
              (show s % 86400 / 3600 * 3600 + s % 86400 % 3600 % 60 * 1 < 2 ^ 63 by omega)
          · omega
          · rw [hdec]
            show s - (s % 86400 / 3600 * 3600 + s % 86400 % 3600 % 60 * 1) < 1
            omega
          · rw [hdec]
            intro p hp hdvd
            simp only [List.cons_append, List.nil_append, List.head?_cons,
              Option.mem_def, Option.some.injEq] at hp
            subst hp
            have hdvd2 : (3600 : Nat) ∣ s := hdvd
            omega
        · rw [if_neg hA, if_pos hB, if_neg hC, if_neg hD] at hdec
          have hfmt := duration_shape s ⟨cpt, 2⟩
          rw [hdec] at hfmt
          refine ⟨_, s % 86400 / 3600 * 3600, hfmt, ?_, ?_, ?_, ?_⟩
          · exact rendered_one_parse (s % 86400 / 3600) ⟨3600, "h", "hour"⟩ cpt
              (Or.inr (Or.inl rfl)) (show s % 86400 / 3600 * 3600 < 2 ^ 63 by omega)
          · omega
          · rw [hdec]
            show s - (s % 86400 / 3600 * 3600) < 3600
            omega
          · rw [hdec]
            intro p hp hdvd
            simp only [List.cons_append, List.nil_append, List.head?_cons,
              Option.mem_def, Option.some.injEq] at hp
            subst hp
            have hdvd2 : (3600 : Nat) ∣ s := hdvd
            omega
    · by_cases hC : 60 ≤ s % 86400 % 3600
      · by_cases hD : 1 ≤ s % 86400 % 3600 % 60
        · rw [if_neg hA, if_neg hB, if_pos hC, if_pos hD] at hdec
          have hfmt := duration_shape s ⟨cpt, 2⟩
          rw [hdec] at hfmt
          refine ⟨_, s % 86400 % 3600 / 60 * 60 + s % 86400 % 3600 % 60 * 1, hfmt, ?_, ?_, ?_, ?_⟩
          · exact rendered_two_parse (s % 86400 % 3600 / 60) (s % 86400 % 3600 % 60) ⟨60, "m", "minute"⟩
              ⟨1, "s", "second"⟩ cpt (Or.inr (Or.inr (Or.inl rfl))) (Or.inr (Or.inr (Or.inr rfl)))
              (show s % 86400 % 3600 / 60 * 60 + s % 86400 % 3600 % 60 * 1 < 2 ^ 63 by omega)
          · omega
          · rw [hdec]
            show s - (s % 86400 % 3600 / 60 * 60 + s % 86400 % 3600 % 60 * 1) < 1
            omega
          · rw [hdec]
            intro p hp hdvd
            simp only [List.cons_append, List.nil_append, List.head?_cons,
              Option.mem_def, Option.some.injEq] at hp
            subst hp
            have hdvd2 : (60 : Nat) ∣ s := hdvd
            omega
        · rw [if_neg hA, if_neg hB, if_pos hC, if_neg hD] at hdec
          have hfmt := duration_shape s ⟨cpt, 2⟩
          rw [hdec] at hfmt
          refine ⟨_, s % 86400 % 3600 / 60 * 60, hfmt, ?_, ?_, ?_, ?_⟩
          · exact rendered_one_parse (s % 86400 % 3600 / 60) ⟨60, "m", "minute"⟩ cpt
              (Or.inr (Or.inr (Or.inl rfl))) (show s % 86400 % 3600 / 60 * 60 < 2 ^ 63 by omega)
          · omega
          · rw [hdec]
            show s - (s % 86400 % 3600 / 60 * 60) < 60
            omega
          · rw [hdec]
            intro p hp hdvd
            simp only [List.cons_append, List.nil_append, List.head?_cons,
              Option.mem_def, Option.some.injEq] at hp
            subst hp
            have hdvd2 : (60 : Nat) ∣ s := hdvd
            omega
      · by_cases hD : 1 ≤ s % 86400 % 3600 % 60
        · rw [if_neg hA, if_neg hB, if_neg hC, if_pos hD] at hdec
          have hfmt := duration_shape s ⟨cpt, 2⟩
          rw [hdec] at hfmt
          refine ⟨_, s % 86400 % 3600 % 60 * 1, hfmt, ?_, ?_, ?_, ?_⟩
          · exact rendered_one_parse (s % 86400 % 3600 % 60) ⟨1, "s", "second"⟩ cpt
              (Or.inr (Or.inr (Or.inr rfl))) (show s % 86400 % 3600 % 60 * 1 < 2 ^ 63 by omega)
          · omega
          · rw [hdec]
            show s - (s % 86400 % 3600 % 60 * 1) < 1
            omega
          · rw [hdec]
            intro p hp hdvd
            simp only [List.cons_append, List.nil_append, List.head?_cons,
              Option.mem_def, Option.some.injEq] at hp
            subst hp
            have hdvd2 : (1 : Nat) ∣ s := hdvd
            omega
        · rw [if_neg hA, if_neg hB, if_neg hC, if_neg hD] at hdec
          have hs0 : s = 0 := by omega
          subst hs0
          have hfmt := duration_shape 0 ⟨cpt, 2⟩
          rw [hdec] at hfmt
          refine ⟨_, 0, hfmt, ?_, ?_, ?_, ?_⟩
          · cases cpt <;> rfl
          · omega
          · rw [hdec]
            decide
          · rw [hdec]
            intro p hp hdvd
            simp at hp

/-- Witness for the amended C1 at the spec's worked example 9000 seconds,
verbose mode (the hypothesis 9000 < 2592000 discharged by decide). -/
theorem duration_roundtrip_witness :
    ∃ (out : String) (r : Nat),
      Duration ((9000 : Nat) : Int) ⟨false, 2⟩ = .ok out ∧
      ParseDuration out = .ok (r : Int) ∧
      r ≤ 9000 ∧
      9000 - r < granularity ((decompose 9000 unitTable).take 2) ∧
      (∀ p ∈ (decompose 9000 unitTable).head?, p.2.seconds ∣ 9000 → r = 9000) :=
  duration_roundtrip 9000 (by decide) false

end Whenwords
